import Mathlib

/-!
Verification of the melian in-memory read cache core against its
natural-language specification.

The development shallowly embeds the C sources of the repository:
  * `src/server/util.c`   — `next_power_of_two`
  * `src/server/arena.c`  — append-only arena with framed stores
  * `src/server/hash.c`   — open-addressed linear-probe hash index
  * `src/server/data.c`   — table snapshots, refresh, double buffering
  * `src/server/server.c` — connection engine (header parsing, key
    buffering, dispatch, response assembly)

Bytes are modelled as `Nat` (values < 256 where it matters), C `unsigned`
values as `Nat` with explicit `% 2^32` reasoning where 32-bit overflow is
relevant, pointers into an arena as byte offsets, and fallible or
potentially diverging loops as fueled recursions returning `Option`.
-/

set_option maxRecDepth 4096

namespace Melian

/-! ## Byte-level helpers (big-endian framing, as in `arena.c` and the wire
protocol of `server.c`/`protocol.h`). -/

/-- The 4 big-endian header bytes written by `arena_store_framed`
(`arena.c` lines 67-72): `(len >> 24) & 0xFF`, `(len >> 16) & 0xFF`,
`(len >> 8) & 0xFF`, `len & 0xFF`. -/
def be32 (len : Nat) : List Nat :=
  [(len >>> 24) &&& 0xFF, (len >>> 16) &&& 0xFF, (len >>> 8) &&& 0xFF, len &&& 0xFF]

/-- Reading 4 bytes as a big-endian integer (the inverse view used by the
spec: "reading the 4 bytes at index i as a big-endian integer"). -/
def readBE32 (bs : List Nat) : Nat :=
  bs.getD 0 0 * 16777216 + bs.getD 1 0 * 65536 + bs.getD 2 0 * 256 + bs.getD 3 0

/-! ## `next_power_of_two` (`util.c` lines 11-17)

```
unsigned next_power_of_two(unsigned value, unsigned start) {
  unsigned power = start;
  while (value > power) { power <<= 1; }
  return power;
}
```

The loop is modelled with fuel; `value` iterations are always enough when
`start ≥ 1` (see `nptFuel_spec`). -/

def nptFuel : Nat → Nat → Nat → Nat
  | 0, _, power => power
  | fuel + 1, value, power => if power < value then nptFuel fuel value (2 * power) else power

def next_power_of_two (value start : Nat) : Nat :=
  nptFuel value value start

/-! ## Arena (`src/server/arena.c`)

The arena is a contiguous growable byte buffer with bump allocation.  The
buffer is modelled at full capacity (`buffer.length = capacity`); bytes
never written are 0 (` realloc`-exposed junk is deterministically modelled
as 0 — only bytes below `used` are ever read back by the program).
Pointers into the arena are represented by byte offsets from the base. -/

structure Arena where
  capacity : Nat
  used : Nat
  buffer : List Nat
  deriving Repr, DecidableEq

/-- `arena_build` (`arena.c` lines 7-30): fresh arena with the given
capacity and `used = 0`. -/
def arena_build (capacity : Nat) : Arena :=
  { capacity := capacity, used := 0, buffer := List.replicate capacity 0 }

/-- `arena_reset` (`arena.c` lines 38-40): rewind `used` without releasing
storage. -/
def arena_reset (a : Arena) : Arena :=
  { a with used := 0 }

/-- `arena_check_and_grow` (`arena.c` lines 42-54): when
`used + extra > capacity`, realloc to `next_power_of_two(total, capacity)`.
Realloc preserves the old bytes; the new tail is junk (modelled as 0). -/
def arena_check_and_grow (a : Arena) (extra : Nat) : Arena :=
  if a.used + extra ≤ a.capacity then a
  else
    { a with capacity := next_power_of_two (a.used + extra) a.capacity,
             buffer := a.buffer ++
               List.replicate (next_power_of_two (a.used + extra) a.capacity
                                 - a.buffer.length) 0 }

/-- `arena_store` (`arena.c` lines 56-63): grow if needed, copy `src` at
offset `used`, bump `used`; returns the offset at which the bytes were
placed together with the updated arena. -/
def arena_store (a : Arena) (src : List Nat) : Nat × Arena :=
  ((arena_check_and_grow a src.length).used,
   { arena_check_and_grow a src.length with
     buffer := (arena_check_and_grow a src.length).buffer.take
                   (arena_check_and_grow a src.length).used
               ++ src
               ++ (arena_check_and_grow a src.length).buffer.drop
                   ((arena_check_and_grow a src.length).used + src.length),
     used := (arena_check_and_grow a src.length).used + src.length })

/-- `arena_store_framed` (`arena.c` lines 65-78): store a 4-byte big-endian
length header followed by the bytes; return the offset of the header. -/
def arena_store_framed (a : Arena) (src : List Nat) : Nat × Arena :=
  let hdr := be32 src.length
  let r1 := arena_store a hdr
  let r2 := arena_store r1.2 src
  (r1.1, r2.2)

/-- Modelled from the spec: `arena.h` is absent from the source tree;
§3.1 gives `get_ptr(index) -> bytes&`, a reference to the bytes at `index`.
With pointers represented as offsets from the arena base, the pointer for
`index` is `index` itself. -/
def arena_get_ptr (index : Nat) : Nat := index

/-- Reading `n` bytes starting at offset `i` of the arena's buffer. -/
def Arena.read (a : Arena) (i n : Nat) : List Nat :=
  (a.buffer.drop i).take n

/-- Well-formedness: the modelled buffer spans the whole capacity, the
write cursor is in range, and the capacity is at least 1 (every arena in
the program is built with `ARENA_INITIAL_CAPACITY = 1024`). -/
def Arena.WF (a : Arena) : Prop :=
  a.buffer.length = a.capacity ∧ a.used ≤ a.capacity ∧ 1 ≤ a.capacity

instance (a : Arena) : Decidable a.WF := by
  unfold Arena.WF; infer_instance

/-- Folding a sequence of subsequent `arena_store`s (the stores performed by
the rest of a refresh, before the next `arena_reset`). -/
def storeAll (a : Arena) (srcs : List (List Nat)) : Arena :=
  srcs.foldl (fun st s => (arena_store st s).2) a

/-! ## Hash index (`src/server/hash.c`)

Buckets hold a 64-bit key hash, the key length, and key / framed-payload
references that are arena *indices* during the build phase and become
pointers (modelled as arena offsets) after `hash_finalize_pointers`.
An empty bucket is marked by `key_len = 0` (`calloc` zeroing).

The hash function in the source is `XXH32` from the vendored `xxhash.h`,
which is absent from the source tree.  Modelled from the spec (§4.2):
"the specific algorithm is not observable outside the component, but the
same function must be used for insert and lookup" — the development is
therefore parameterised by an arbitrary function `hashFn` of the raw key
bytes. -/

/-- A key or frame reference: an arena index during load, a pointer (arena
offset) after finalization.  `NULL` from `calloc` is `.ptr 0`. -/
inductive Ref where
  | idx : Nat → Ref
  | ptr : Nat → Ref
  deriving Repr, DecidableEq

structure Bucket where
  hash : Nat
  key_len : Nat
  key_ptr : Ref
  frame_ptr : Ref
  frame_len : Nat
  deriving Repr, DecidableEq

/-- The all-zero bucket produced by `calloc` in `hash_build`. -/
def Bucket.emptyB : Bucket :=
  { hash := 0, key_len := 0, key_ptr := .ptr 0, frame_ptr := .ptr 0, frame_len := 0 }

structure Hash where
  cap : Nat
  used : Nat
  tab : List Bucket
  deriving Repr, DecidableEq

/-- `hash_build` (`hash.c` lines 37-66): zeroed table of `cap_pow2` buckets. -/
def hash_build (cap_pow2 : Nat) : Hash :=
  { cap := cap_pow2, used := 0, tab := List.replicate cap_pow2 Bucket.emptyB }

def bucketAt (h : Hash) (i : Nat) : Bucket :=
  h.tab.getD i Bucket.emptyB

/-- `key_equals` (`hash.c` lines 10-18): 4-byte keys are compared as one
32-bit load each, other lengths via `memcmp`.  Byte lists stand for the
`len` bytes read from each pointer. -/
def key_equals (a b : List Nat) (len : Nat) : Bool :=
  if len = 4 then a.take 4 == b.take 4 else a == b

/-- Dereferencing a bucket reference.  A `.ptr` is an offset into the
arena; a `.idx` used as a memory address points outside the arena (the
undefined behaviour of reading an unfinalized bucket), modelled as junk. -/
def derefBytes (arena : Arena) (r : Ref) (len : Nat) : List Nat :=
  match r with
  | .ptr p => arena.read p len
  | .idx _ => []

/-- The match test of `hash_get` (`hash.c` lines 134-135): stored 64-bit
hash, key length and raw key bytes must all agree. -/
def matchesKey (hashFn : List Nat → Nat) (arena : Arena) (key : List Nat)
    (b : Bucket) : Bool :=
  (b.hash == hashFn key && b.key_len == key.length) &&
    key_equals (derefBytes arena b.key_ptr b.key_len) key b.key_len

/-- The probe loop of `hash_insert` (`hash.c` lines 80-96): linear probing
for the first empty bucket.  The C loop has no exit when the table is
full; fuel `h.cap` covers every position once, so `none` models that
divergence. -/
def hash_insert_probe (h : Hash) : Nat → Nat → Option Nat
  | 0, _ => none
  | fuel + 1, idx =>
    if (bucketAt h idx).key_len = 0 then some idx
    else hash_insert_probe h fuel ((idx + 1) &&& (h.cap - 1))

/-- `hash_insert` (`hash.c` lines 76-97): probe from `hash & (cap-1)`; at
the first empty bucket store the key in the arena and write the bucket
fields with arena indices as placeholder pointers. -/
def hash_insert (hashFn : List Nat → Nat) (h : Hash) (arena : Arena)
    (key : List Nat) (frame : Nat) (frame_len : Nat) : Option (Hash × Arena) :=
  match hash_insert_probe h h.cap (hashFn key &&& (h.cap - 1)) with
  | none => none
  | some i =>
      some ({ h with
              tab := h.tab.set i
                { hash := hashFn key, key_len := key.length,
                  key_ptr := .idx (arena_store arena key).1,
                  frame_ptr := .idx frame, frame_len := frame_len },
              used := h.used + 1 },
            (arena_store arena key).2)

/-- `hash_finalize_pointers` (`hash.c` lines 100-111): convert the arena
indices of every occupied bucket into pointers (`arena_get_ptr`). -/
def hash_finalize_pointers (h : Hash) : Hash :=
  { h with tab := h.tab.map fun b =>
      if b.key_len = 0 then b
      else { b with
             key_ptr := .ptr (arena_get_ptr (match b.key_ptr with
                                             | .idx i => i | .ptr p => p)),
             frame_ptr := .ptr (arena_get_ptr (match b.frame_ptr with
                                               | .idx i => i | .ptr p => p)) } }

/-- The probe loop of `hash_get` (`hash.c` lines 126-138), with the probe
counter.  As for insertion, exhausting the fuel (`none`) models the
divergence of the C loop on a full table with no match. -/
def hash_get_probe (hashFn : List Nat → Nat) (h : Hash) (arena : Arena)
    (key : List Nat) : Nat → Nat → Nat → Option (Option Bucket × Nat)
  | 0, _, _ => none
  | fuel + 1, idx, probes =>
    if (bucketAt h idx).key_len = 0 then some (none, probes + 1)
    else if matchesKey hashFn arena key (bucketAt h idx) then
      some (some (bucketAt h idx), probes + 1)
    else hash_get_probe hashFn h arena key fuel ((idx + 1) &&& (h.cap - 1)) (probes + 1)

/-- `hash_get` (`hash.c` lines 114-145): linear probe from
`hash & (cap-1)`; stop on the first empty bucket (miss) or a full match
(hit). -/
def hash_get (hashFn : List Nat → Nat) (h : Hash) (arena : Arena)
    (key : List Nat) : Option (Option Bucket × Nat) :=
  hash_get_probe hashFn h arena key h.cap (hashFn key &&& (h.cap - 1)) 0

/-- The stopping condition of the `hash_get` probe loop at probe step `j`:
the probed bucket is empty, or it matches the key. -/
def stopB (hashFn : List Nat → Nat) (h : Hash) (arena : Arena)
    (key : List Nat) (j : Nat) : Bool :=
  (bucketAt h ((hashFn key + j) % h.cap)).key_len == 0 ||
    matchesKey hashFn arena key (bucketAt h ((hashFn key + j) % h.cap))

/-- What `hash_get` returns when it stops at probe step `j`. -/
def resultAt (hashFn : List Nat → Nat) (h : Hash) (key : List Nat) (j : Nat) :
    Option Bucket :=
  if (bucketAt h ((hashFn key + j) % h.cap)).key_len = 0 then none
  else some (bucketAt h ((hashFn key + j) % h.cap))

/-- The set of occupied bucket positions (`key_len ≠ 0`). -/
def occupiedPositions (h : Hash) : Finset Nat :=
  (Finset.range h.cap).filter (fun p => (bucketAt h p).key_len ≠ 0)

/-- The number of occupied buckets of a hash. -/
def occupiedCount (h : Hash) : Nat :=
  (occupiedPositions h).card

/-! ### Build histories and the insert/lookup round trip (spec §8, §3.2)

During a refresh the hash is filled by a sequence of `hash_insert` calls
interleaved with other stores into the shared arena (the framed row
payloads, and the key stores of the other indexes of the same table).
A build history records exactly that. -/

inductive BuildOp where
  | ins (key : List Nat) (frame frame_len : Nat)
  | ext (bytes : List Nat)
  deriving Repr, DecidableEq

def buildStep (hashFn : List Nat → Nat) :
    Option (Hash × Arena) → BuildOp → Option (Hash × Arena)
  | none, _ => none
  | some (h, a), .ins k f fl => hash_insert hashFn h a k f fl
  | some (h, a), .ext b => some (h, (arena_store a b).2)

def build (hashFn : List Nat → Nat) (start : Hash × Arena) (ops : List BuildOp) :
    Option (Hash × Arena) :=
  ops.foldl (buildStep hashFn) (some start)

/-- The frame reference and frame length passed at the first insertion of
key `k` in a build history. -/
def firstIns (k : List Nat) : List BuildOp → Option (Nat × Nat)
  | [] => none
  | .ins k' f fl :: rest => if k' = k then some (f, fl) else firstIns k rest
  | .ext _ :: rest => firstIns k rest

/-- The key bytes a bucket refers to, reading the reference as an arena
offset whether it is still an index or already a pointer (both denote the
same offset in this model). -/
def readKeyRaw (a : Arena) (b : Bucket) : List Nat :=
  match b.key_ptr with
  | .idx i => a.read i b.key_len
  | .ptr p => a.read p b.key_len

/-- The per-bucket transformation applied by `hash_finalize_pointers`. -/
def finB (b : Bucket) : Bucket :=
  if b.key_len = 0 then b
  else { b with
         key_ptr := .ptr (arena_get_ptr (match b.key_ptr with
                                         | .idx i => i | .ptr p => p)),
         frame_ptr := .ptr (arena_get_ptr (match b.frame_ptr with
                                           | .idx i => i | .ptr p => p)) }

/-- The invariant maintained along a build history `ops`: every occupied
bucket holds an in-bounds arena index for its key bytes and the matching
hash; and for every key `k` first inserted with frame data `(f, fl)`, the
bucket reached after `d` probe steps holds `k` with that frame data, all
earlier probe positions being occupied by other keys. -/
structure Inv (hashFn : List Nat → Nat) (cap : Nat) (ops : List BuildOp)
    (h : Hash) (a : Arena) : Prop where
  cap_eq : h.cap = cap
  tab_len : h.tab.length = cap
  arena_wf : a.WF
  bucket_wf : ∀ p, p < cap → (bucketAt h p).key_len ≠ 0 →
    (∃ i, (bucketAt h p).key_ptr = Ref.idx i ∧ i + (bucketAt h p).key_len ≤ a.used) ∧
    (readKeyRaw a (bucketAt h p)).length = (bucketAt h p).key_len ∧
    (bucketAt h p).hash = hashFn (readKeyRaw a (bucketAt h p))
  first : ∀ k, k ≠ [] → ∀ f fl, firstIns k ops = some (f, fl) →
    ∃ d, d < cap ∧ (bucketAt h ((hashFn k + d) % cap)).key_len ≠ 0 ∧
      readKeyRaw a (bucketAt h ((hashFn k + d) % cap)) = k ∧
      (bucketAt h ((hashFn k + d) % cap)).frame_len = fl ∧
      (bucketAt h ((hashFn k + d) % cap)).frame_ptr = Ref.idx f ∧
      ∀ j, j < d → (bucketAt h ((hashFn k + j) % cap)).key_len ≠ 0 ∧
        readKeyRaw a (bucketAt h ((hashFn k + j) % cap)) ≠ k
  absent : ∀ k, k ≠ [] → firstIns k ops = none →
    ∀ p, p < cap → (bucketAt h p).key_len ≠ 0 → readKeyRaw a (bucketAt h p) ≠ k

/-- A concrete hash function for the concrete C3 instances. -/
def cexHashFn : List Nat → Nat := fun _ => 0

/-- The hash produced by inserting key `[5, 6]` (frame 3, frame_len 9) into
a fresh capacity-4 table backed by a fresh 8-byte arena. -/
def c3Hash : Hash :=
  ⟨4, 1, [⟨0, 2, .idx 0, .idx 3, 9⟩, Bucket.emptyB, Bucket.emptyB, Bucket.emptyB]⟩

/-- The arena after that insertion: the two key bytes at offset 0. -/
def c3Arena : Arena := ⟨8, 2, [5, 6, 0, 0, 0, 0, 0, 0]⟩

/-! ## Table snapshots and refresh (`src/server/data.c`, `data.h`)

A table holds two `(arena, indexes[])` slots and an atomic slot selector
`current_slot`.  `table_load_from_db` rebuilds the inactive slot from the
database and stores the slot number into `current_slot`.  The
driver-specific row source (`db_get_table_size` / `db_query_into_hash`
of `db.c`) is a parameter: the row-count result and the function that
fills the slot and reports `(rows, min_id, max_id)`. -/

inductive ConfigIndexType where
  | int
  | string
  deriving Repr, DecidableEq

structure TableIndex where
  id : Nat
  type : ConfigIndexType
  deriving Repr, DecidableEq

structure TableStats where
  last_loaded : Nat
  rows : Nat
  min_id : Nat
  max_id : Nat
  deriving Repr, DecidableEq

structure TableSlot where
  arena : Arena
  indexes : List (Option Hash)
  deriving Repr, DecidableEq

structure Table where
  table_id : Nat
  period : Nat
  index_count : Nat
  indexes : List TableIndex
  stats : TableStats
  current_slot : Nat
  slot0 : TableSlot
  slot1 : TableSlot
  deriving Repr, DecidableEq

def slotAt (t : Table) (p : Nat) : TableSlot :=
  if p = 0 then t.slot0 else t.slot1

def setSlot (t : Table) (p : Nat) (s : TableSlot) : Table :=
  if p = 0 then { t with slot0 := s } else { t with slot1 := s }

/-- `(unsigned)-1`, the `min_id` initializer of the row loaders. -/
def UMAX32 : Nat := 2 ^ 32 - 1

/-- `table_load_from_db` (`data.c` lines 95-134).  `now - last_loaded` is
unsigned arithmetic in C; timestamps here satisfy `last_loaded ≤ now`.
With `load = false` only the eligibility test runs.  With `load = true`:
reset the inactive slot's arena, destroy and rebuild a fresh hash of
capacity `2 * next_power_of_two(size, 1)` for every configured index, run
the driver query into the slot, update the stats, and store the slot
number into `current_slot` — unconditionally. -/
def table_load_from_db (dbSize : Nat)
    (dbQuery : Table → TableSlot → TableSlot × Nat × Nat × Nat)
    (t : Table) (now : Nat) (load : Bool) : Table × Nat :=
  if now - t.stats.last_loaded < t.period then (t, 0)
  else if !load then (t, 1)
  else
    let pos := 1 - t.current_slot
    let slot := slotAt t pos
    let slot := { slot with arena := arena_reset slot.arena }
    let hash_cap := 2 * next_power_of_two dbSize 1
    let slot := { slot with
      indexes := List.replicate t.index_count (some (hash_build hash_cap)) }
    let r := dbQuery t slot
    let t2 := setSlot t pos r.1
    let int_primary : Bool := t.index_count ≠ 0 &&
      (t.indexes.getD 0 ⟨0, ConfigIndexType.int⟩).type == ConfigIndexType.int
    let t3 := { t2 with
      stats := { last_loaded := now, rows := r.2.1,
                 min_id := if int_primary then
                     (if r.2.2.1 = UMAX32 then 0 else r.2.2.1) else 0,
                 max_id := if int_primary then r.2.2.2 else 0 },
      current_slot := pos }
    (t3, r.2.1)

/-- The driver behaviour when the row query fails outright (e.g.
`db_sqlite_query_into_hash` when `sqlite3_prepare_v2` fails, `db.c` lines
713-718): the slot is left untouched and 0 rows are reported, with
`min_id`/`max_id` keeping their caller initializers. -/
def failingQuery : Table → TableSlot → TableSlot × Nat × Nat × Nat :=
  fun _ slot => (slot, 0, UMAX32, 0)

/-- The driver behaviour for a successful one-row query, mirroring the
per-row body of `db_sqlite_query_into_hash` (`db.c` lines 753-894): encode
the row, store it framed in the slot's arena, and `hash_insert` the index
key with the frame index and `row_size + 4`. -/
def queryOneRow (hashFn : List Nat → Nat) (key : List Nat) (row : List Nat) :
    Table → TableSlot → TableSlot × Nat × Nat × Nat :=
  fun _ slot =>
    match slot.indexes.getD 0 none with
    | none => (slot, 0, UMAX32, 0)
    | some hsh =>
      match hash_insert hashFn hsh (arena_store_framed slot.arena row).2 key
          (arena_store_framed slot.arena row).1 (row.length + 4) with
      | none =>
        ({ slot with arena := (arena_store_framed slot.arena row).2 }, 0, UMAX32, 0)
      | some (h2, a2) =>
        ({ slot with arena := a2, indexes := slot.indexes.set 0 (some h2) }, 1, 42, 42)

/-- A concrete one-int-index table before a refresh. -/
def c2Table : Table :=
  Table.mk 0 5 1 [⟨0, ConfigIndexType.int⟩] ⟨0, 0, 0, 0⟩ 0
    ⟨arena_build 16, [some (hash_build 2)]⟩ ⟨arena_build 16, [none]⟩

/-! ## Connection engine (`src/server/server.c`)

Per-connection state machine: header parsing, key buffering (with the
discard path for oversized keys), dispatch and response assembly.  The
lookup, schema and stats sides are abstracted as an environment `Env`
(they live in `data.c`/`status.c`); a FETCH hit yields the framed arena
slice (`bucket->frame_ptr` / `frame_len`).  Responses are modelled as the
byte sequences handed to `queue_response` (header ++ payload). -/

def MELIAN_MAX_KEY_LEN : Nat := 256

def MELIAN_RBUF_SIZE : Nat := 4096

def MELIAN_HEADER_VERSION : Nat := 0x11

structure Env where
  fetch : Nat → Nat → List Nat → Option (List Nat)
  schema : List Nat
  stats : List Nat

/-- The mutable parse fields of `struct conn_state_t` (`server.c` lines
42-74) that the read path uses. -/
structure Conn where
  rbuf : List Nat
  rbufPos : Nat
  hdrHave : Nat
  action : Nat
  tableId : Nat
  indexId : Nat
  keyLen : Nat
  keyHave : Nat
  discarding : Bool
  deriving Repr, DecidableEq

def connInit : Conn := ⟨[], 0, 0, 0, 0, 0, 0, 0, false⟩

/-- The literal bytes of the QUIT farewell payload. -/
def byeBytes : List Nat := [123, 34, 66, 89, 69, 34, 58, 116, 114, 117, 101, 125]

/-- Steps 3-4 of the request loop (`server.c` lines 510-581): select the
response for the parsed request and serialize it as the bytes handed to
`queue_response` — a 4-byte big-endian length header plus payload, except
for FETCH hits, whose arena frame is already framed and is queued alone. -/
def dispatch (env : Env) (c : Conn) (key : List Nat) : List Nat × Bool :=
  if c.discarding then (be32 0, false)
  else if c.action = 70 then
    match env.fetch c.tableId c.indexId key with
    | some frame => if frame.length ≠ 0 then (frame, false) else (be32 0, false)
    | none => (be32 0, false)
  else if c.action = 68 then
    (if env.schema.length ≠ 0 then be32 env.schema.length ++ env.schema
     else be32 0, false)
  else if c.action = 115 then
    (if env.stats.length ≠ 0 then be32 env.stats.length ++ env.stats
     else be32 0, false)
  else if c.action = 113 then
    (be32 byeBytes.length ++ byeBytes, true)
  else (be32 0, false)

/-- The canonical dispatch result for a non-discarded request. -/
def dispatchR (env : Env) (action tableId indexId : Nat) (key : List Nat) :
    List Nat × Bool :=
  dispatch env ⟨[], 0, 8, action, tableId, indexId, key.length, 0, false⟩ key

/-- The response bytes for a non-discarded request. -/
def respOf (env : Env) (action tableId indexId : Nat) (key : List Nat) : List Nat :=
  (dispatchR env action tableId indexId key).1

inductive StepResult where
  | close
  | needMore (c : Conn)
  | emit (c : Conn) (resp : List Nat) (quit : Bool)
  deriving Repr, DecidableEq

/-- Response emission and end-of-request bookkeeping (`server.c` lines
563-591): queue exactly one response, advance past the key bytes of a
non-discarded request, and reset the parse state. -/
def dispatchEmit (env : Env) (c : Conn) (key : List Nat) : StepResult :=
  .emit { c with
          rbufPos := if c.discarding then c.rbufPos else c.rbufPos + c.keyLen,
          hdrHave := 0, keyHave := 0, discarding := false }
    (dispatch env c key).1 (dispatch env c key).2

/-- Steps 2-4 for a connection whose header is already parsed.  On the
discard path, `min (keyLen - keyHave) avail` bytes are consumed and the
request dispatches only once `keyHave` reaches `keyLen`; otherwise the
loop waits for the complete key and dispatches on it. -/
def connStep2 (env : Env) (c : Conn) : StepResult :=
  if c.discarding then
    if c.keyHave + min (c.keyLen - c.keyHave) (c.rbuf.length - c.rbufPos)
        < c.keyLen then
      .needMore { c with
        rbufPos := c.rbufPos + min (c.keyLen - c.keyHave) (c.rbuf.length - c.rbufPos),
        keyHave := c.keyHave + min (c.keyLen - c.keyHave) (c.rbuf.length - c.rbufPos) }
    else
      dispatchEmit env
        { c with
          rbufPos := c.rbufPos + min (c.keyLen - c.keyHave) (c.rbuf.length - c.rbufPos),
          keyHave := c.keyHave + min (c.keyLen - c.keyHave) (c.rbuf.length - c.rbufPos) }
        []
  else
    if c.rbuf.length - c.rbufPos < c.keyLen then .needMore c
    else dispatchEmit env c ((c.rbuf.drop c.rbufPos).take c.keyLen)

/-- One iteration of the request loop of `on_read` (`server.c` lines
470-592): accumulate and parse the 8-byte header (closing on a bad version
byte), then consume the key bytes and dispatch. -/
def connStep (env : Env) (c : Conn) : StepResult :=
  if c.hdrHave < 8 then
    if c.rbuf.length - c.rbufPos < 8 then .needMore c
    else
      if ((c.rbuf.drop c.rbufPos).take 8).getD 0 0 ≠ MELIAN_HEADER_VERSION then .close
      else
        connStep2 env
          { c with
            action := ((c.rbuf.drop c.rbufPos).take 8).getD 1 0,
            tableId := ((c.rbuf.drop c.rbufPos).take 8).getD 2 0,
            indexId := ((c.rbuf.drop c.rbufPos).take 8).getD 3 0,
            keyLen := readBE32 (((c.rbuf.drop c.rbufPos).take 8).drop 4),
            rbufPos := c.rbufPos + 8, hdrHave := 8,
            discarding := decide (MELIAN_MAX_KEY_LEN
              < readBE32 (((c.rbuf.drop c.rbufPos).take 8).drop 4)),
            keyHave := 0 }
  else connStep2 env c

/-- The request loop: iterate `connStep` until it needs more bytes or
closes, collecting the emitted responses.  Each dispatched request
consumes at least the 8 header bytes, so `rbuf.length + 1` fuel always
drains the buffer. -/
def connLoop (env : Env) : Nat → Conn → Conn × List (List Nat) × Bool × Bool
  | 0, c => (c, [], false, false)
  | fuel + 1, c =>
    match connStep env c with
    | .close => (c, [], true, false)
    | .needMore c2 => (c2, [], false, false)
    | .emit c2 r q =>
      let res := connLoop env fuel c2
      (res.1, r :: res.2.1, res.2.2.1, q || res.2.2.2)

/-- Buffer compaction after the loop (`server.c` lines 595-602). -/
def compact (c : Conn) : Conn :=
  { c with rbuf := c.rbuf.drop c.rbufPos, rbufPos := 0 }

/-- One `on_read` invocation: read as many bytes from the pending stream
as fit in the 4096-byte buffer, run the request loop, compact.  Returns
the connection, the responses, the closed and quit flags, and the
remaining stream. -/
def onReadCall (env : Env) (c : Conn) (stream : List Nat) :
    Conn × List (List Nat) × Bool × Bool × List Nat :=
  let chunk := min (MELIAN_RBUF_SIZE - c.rbuf.length) stream.length
  let c2 : Conn := { c with rbuf := c.rbuf ++ stream.take chunk }
  let r := connLoop env (c2.rbuf.length + 1) c2
  (compact r.1, r.2.1, r.2.2.1, r.2.2.2, stream.drop chunk)

/-- Drive `on_read` calls until the client's byte stream is exhausted (the
kernel delivers as much as fits on each readiness event). -/
def connRun (env : Env) : Nat → Conn → List Nat → Conn × List (List Nat) × Bool
  | 0, c, _ => (c, [], false)
  | fuel + 1, c, stream =>
    if stream.isEmpty then (c, [], false)
    else
      let r := onReadCall env c stream
      if r.2.2.1 then (r.1, r.2.1, true)
      else
        let r2 := connRun env fuel r.1 r.2.2.2.2
        (r2.1, r.2.1 ++ r2.2.1, r2.2.2)

/-- The wire encoding of a request (`protocol.h`): version, action, table
id, index id, 4-byte big-endian key length, then the key bytes. -/
def mkRequest (action tableId indexId : Nat) (key : List Nat) : List Nat :=
  [MELIAN_HEADER_VERSION, action, tableId, indexId] ++ be32 key.length ++ key

/-- A FETCH environment is well-framed when every hit is a framed arena
slice: its 4-byte big-endian length followed by that many payload bytes
(which is what `arena_store_framed` lays down and `hash_insert` records,
see C6). -/
def WellFramed (env : Env) : Prop :=
  ∀ t i k fr, env.fetch t i k = some fr →
    ∃ body, fr = be32 body.length ++ body ∧ body.length < 2 ^ 32

/-- A concrete environment whose FETCH table holds one framed row. -/
def c4Env : Env := ⟨fun _ _ _ => some (be32 3 ++ [9, 9, 9]), [5, 5], [6]⟩

/-- A connection that has received one complete FETCH request. -/
def c4Conn : Conn := { connInit with rbuf := mkRequest 70 1 2 [42, 0, 0, 0] }

def c4Conn2 : Conn :=
  ⟨[17, 70, 1, 2, 0, 0, 0, 4, 42, 0, 0, 0], 12, 0, 70, 1, 2, 4, 0, false⟩

/-! ## Theorems -/

theorem be32_length (len : Nat) : (be32 len).length = 4 := rfl

theorem readBE32_be32 (len : Nat) (h : len < 2 ^ 32) : readBE32 (be32 len) = len := by
  simp only [be32, readBE32, List.getD_cons_zero, List.getD_cons_succ]
  have h24 : len >>> 24 &&& 0xFF = len / 2 ^ 24 % 2 ^ 8 := by
    rw [Nat.shiftRight_eq_div_pow]
    exact Nat.and_pow_two_sub_one_eq_mod _ 8
  have h16 : len >>> 16 &&& 0xFF = len / 2 ^ 16 % 2 ^ 8 := by
    rw [Nat.shiftRight_eq_div_pow]
    exact Nat.and_pow_two_sub_one_eq_mod _ 8
  have h8 : len >>> 8 &&& 0xFF = len / 2 ^ 8 % 2 ^ 8 := by
    rw [Nat.shiftRight_eq_div_pow]
    exact Nat.and_pow_two_sub_one_eq_mod _ 8
  have h0 : len &&& 0xFF = len % 2 ^ 8 := Nat.and_pow_two_sub_one_eq_mod _ 8
  rw [h24, h16, h8, h0]
  omega

theorem nptFuel_spec (fuel value power : Nat) (h : value ≤ power * 2 ^ fuel) :
    ∃ k, nptFuel fuel value power = power * 2 ^ k ∧
      value ≤ power * 2 ^ k ∧ (∀ j < k, power * 2 ^ j < value) := by
  induction fuel generalizing power with
  | zero =>
    refine ⟨0, by simp [nptFuel], by simpa using h, by omega⟩
  | succ n ih =>
    by_cases hlt : power < value
    · have h2 : value ≤ 2 * power * 2 ^ n := by
        have : power * 2 ^ (n + 1) = 2 * power * 2 ^ n := by ring
        omega
      obtain ⟨k, hk, hge, hmin⟩ := ih (2 * power) h2
      refine ⟨k + 1, ?_, ?_, ?_⟩
      · simp only [nptFuel, if_pos hlt]
        rw [hk]; ring
      · calc value ≤ 2 * power * 2 ^ k := hge
          _ = power * 2 ^ (k + 1) := by ring
      · intro j hj
        cases j with
        | zero => simpa using hlt
        | succ i =>
          have := hmin i (by omega)
          calc power * 2 ^ (i + 1) = 2 * power * 2 ^ i := by ring
            _ < value := this
    · exact ⟨0, by simp [nptFuel, hlt], by omega, by omega⟩

theorem fuel_sufficient (value power : Nat) (hp : 1 ≤ power) :
    value ≤ power * 2 ^ value := by
  calc value ≤ 2 ^ value := Nat.le_of_lt (Nat.lt_two_pow value)
    _ = 1 * 2 ^ value := (Nat.one_mul _).symm
    _ ≤ power * 2 ^ value := Nat.mul_le_mul_right _ hp

/-- `next_power_of_two value start` with `start ≥ 1` is the least value in
the doubling chain `start, 2*start, 4*start, …` that is `≥ value`. -/
theorem next_power_of_two_spec (value start : Nat) (hs : 1 ≤ start) :
    ∃ k, next_power_of_two value start = start * 2 ^ k ∧
      value ≤ start * 2 ^ k ∧ (∀ j < k, start * 2 ^ j < value) :=
  nptFuel_spec value value start (fuel_sufficient value start hs)

theorem next_power_of_two_ge (value start : Nat) (hs : 1 ≤ start) :
    value ≤ next_power_of_two value start := by
  obtain ⟨k, hk, hge, _⟩ := next_power_of_two_spec value start hs
  omega

theorem check_and_grow_used (a : Arena) (extra : Nat) :
    (arena_check_and_grow a extra).used = a.used := by
  unfold arena_check_and_grow
  split <;> rfl

theorem check_and_grow_capacity_le (a : Arena) (extra : Nat) (h : a.WF) :
    a.used + extra ≤ (arena_check_and_grow a extra).capacity := by
  obtain ⟨h1, h2, h3⟩ := h
  unfold arena_check_and_grow
  split
  · simpa
  · exact next_power_of_two_ge _ _ (by omega)

theorem read_append_left (l₁ l₂ : List Nat) (i n : Nat) (h : i + n ≤ l₁.length) :
    ((l₁ ++ l₂).drop i).take n = (l₁.drop i).take n := by
  rw [List.drop_append_of_le_length (by omega)]
  rw [List.take_append_of_le_length (by simp [List.length_drop]; omega)]

theorem npt_capacity_lower (value cap : Nat) (h : 1 ≤ cap) :
    cap ≤ next_power_of_two value cap := by
  obtain ⟨k, hk, _, _⟩ := next_power_of_two_spec value cap h
  have : cap * 1 ≤ cap * 2 ^ k := Nat.mul_le_mul_left _ Nat.one_le_two_pow
  omega

theorem check_and_grow_capacity_lower (a : Arena) (extra : Nat) (h : a.WF) :
    a.capacity ≤ (arena_check_and_grow a extra).capacity := by
  obtain ⟨h1, h2, h3⟩ := h
  by_cases hc : a.used + extra ≤ a.capacity
  · simp [arena_check_and_grow, if_pos hc]
  · simp only [arena_check_and_grow, if_neg hc]
    exact npt_capacity_lower _ _ h3

theorem check_and_grow_wf (a : Arena) (extra : Nat) (h : a.WF) :
    (arena_check_and_grow a extra).WF := by
  have hcap := check_and_grow_capacity_le a extra h
  obtain ⟨h1, h2, h3⟩ := h
  by_cases hc : a.used + extra ≤ a.capacity
  · simpa only [arena_check_and_grow, if_pos hc] using ⟨h1, h2, h3⟩
  · have hlow := npt_capacity_lower (a.used + extra) a.capacity h3
    refine ⟨?_, ?_, ?_⟩ <;>
      simp only [arena_check_and_grow, if_neg hc, List.length_append,
        List.length_replicate] <;> omega

theorem check_and_grow_keeps (a : Arena) (extra : Nat) (h : a.WF) :
    ∀ i n, i + n ≤ a.used →
      (arena_check_and_grow a extra).read i n = a.read i n := by
  intro i n hin
  obtain ⟨h1, h2, h3⟩ := h
  unfold arena_check_and_grow Arena.read
  split
  · rfl
  · exact read_append_left _ _ i n (by omega)

theorem arena_store_index (a : Arena) (src : List Nat) :
    (arena_store a src).1 = a.used := by
  unfold arena_store
  simp [check_and_grow_used]

theorem arena_store_used (a : Arena) (src : List Nat) :
    (arena_store a src).2.used = a.used + src.length := by
  unfold arena_store
  simp [check_and_grow_used]

theorem arena_store_wf (a : Arena) (src : List Nat) (h : a.WF) :
    (arena_store a src).2.WF := by
  have hg := check_and_grow_wf a src.length h
  have hcap := check_and_grow_capacity_le a src.length h
  have hu := check_and_grow_used a src.length
  obtain ⟨g1, g2, g3⟩ := hg
  unfold arena_store
  refine ⟨?_, ?_, ?_⟩ <;>
    simp only [List.length_append, List.length_take, List.length_drop, g1, hu] <;> omega

theorem arena_store_read_back (a : Arena) (src : List Nat) (h : a.WF) :
    (arena_store a src).2.read a.used src.length = src := by
  have hcap := check_and_grow_capacity_le a src.length h
  have hg := check_and_grow_wf a src.length h
  have hu := check_and_grow_used a src.length
  obtain ⟨g1, g2, g3⟩ := hg
  unfold arena_store Arena.read
  simp only [hu]
  have hlen : ((arena_check_and_grow a src.length).buffer.take a.used).length = a.used := by
    simp only [List.length_take]; omega
  rw [List.append_assoc, List.drop_append_of_le_length (by omega)]
  have hnil : ((arena_check_and_grow a src.length).buffer.take a.used).drop a.used = [] :=
    List.drop_eq_nil_of_le (by omega)
  rw [hnil, List.nil_append, List.take_left]

theorem arena_store_keeps (a : Arena) (src : List Nat) (h : a.WF) :
    ∀ i n, i + n ≤ a.used → (arena_store a src).2.read i n = a.read i n := by
  intro i n hin
  have hcap := check_and_grow_capacity_le a src.length h
  have hg := check_and_grow_wf a src.length h
  have hpre := check_and_grow_keeps a src.length h i n hin
  have hu := check_and_grow_used a src.length
  obtain ⟨g1, g2, g3⟩ := hg
  rw [← hpre]
  unfold arena_store Arena.read
  simp only [hu]
  have hlen : ((arena_check_and_grow a src.length).buffer.take a.used).length = a.used := by
    simp only [List.length_take]; omega
  rw [List.append_assoc, read_append_left _ _ i n (by omega)]
  rw [List.drop_take, List.take_take]
  congr 1
  omega

theorem storeAll_preserves (srcs : List (List Nat)) (a : Arena) (h : a.WF)
    (i n : Nat) (hin : i + n ≤ a.used) :
    (storeAll a srcs).read i n = a.read i n ∧ (storeAll a srcs).WF ∧
      a.used ≤ (storeAll a srcs).used := by
  induction srcs generalizing a with
  | nil => exact ⟨rfl, h, Nat.le_refl _⟩
  | cons s rest ih =>
    have hwf := arena_store_wf a s h
    have hused := arena_store_used a s
    have hcons : storeAll a (s :: rest) = storeAll (arena_store a s).2 rest := rfl
    obtain ⟨hr, hw, hu⟩ := ih (arena_store a s).2 hwf (by omega)
    rw [hcons]
    refine ⟨?_, hw, by omega⟩
    rw [hr, arena_store_keeps a s h i n hin]

/-- **C6.** For every arena and every source byte string `src`,
`arena_store_framed` returns an index `i` such that reading the 4 bytes at
`i` as a big-endian integer yields exactly `src.length`, and the
`src.length` bytes immediately following them equal `src`; this remains
true after any sequence of further stores into the arena (that is, until
the next reset). -/
theorem arena_store_framed_frames (a : Arena) (src : List Nat)
    (h : a.WF) (hlen : src.length < 2 ^ 32) :
    readBE32 ((arena_store_framed a src).2.read (arena_store_framed a src).1 4)
        = src.length ∧
    (arena_store_framed a src).2.read ((arena_store_framed a src).1 + 4) src.length
        = src ∧
    ∀ further : List (List Nat),
      readBE32 ((storeAll (arena_store_framed a src).2 further).read
          (arena_store_framed a src).1 4) = src.length ∧
      (storeAll (arena_store_framed a src).2 further).read
          ((arena_store_framed a src).1 + 4) src.length = src := by
  have hidx : (arena_store_framed a src).1 = a.used := by
    unfold arena_store_framed
    exact arena_store_index a (be32 src.length)
  have hwf1 : (arena_store a (be32 src.length)).2.WF := arena_store_wf _ _ h
  have hused1 : (arena_store a (be32 src.length)).2.used = a.used + 4 :=
    arena_store_used a (be32 src.length)
  have hwf2 : (arena_store_framed a src).2.WF := arena_store_wf _ _ hwf1
  have hused2 : (arena_store_framed a src).2.used = a.used + 4 + src.length := by
    unfold arena_store_framed
    rw [arena_store_used, hused1]
  have hhdr : (arena_store a (be32 src.length)).2.read a.used 4 = be32 src.length := by
    have := arena_store_read_back a (be32 src.length) h
    simpa [be32_length] using this
  have hhdr2 : (arena_store_framed a src).2.read a.used 4 = be32 src.length := by
    unfold arena_store_framed
    rw [arena_store_keeps _ _ hwf1 a.used 4 (by omega), hhdr]
  have hsrc : (arena_store_framed a src).2.read (a.used + 4) src.length = src := by
    unfold arena_store_framed
    have := arena_store_read_back (arena_store a (be32 src.length)).2 src hwf1
    rwa [hused1] at this
  refine ⟨?_, ?_, ?_⟩
  · rw [hidx, hhdr2, readBE32_be32 _ hlen]
  · rw [hidx, hsrc]
  · intro further
    obtain ⟨hr1, _, _⟩ := storeAll_preserves further _ hwf2 a.used 4 (by omega)
    obtain ⟨hr2, _, _⟩ := storeAll_preserves further _ hwf2 (a.used + 4) src.length
      (by omega)
    rw [hidx, hr1, hr2, hhdr2, hsrc, readBE32_be32 _ hlen]
    exact ⟨rfl, rfl⟩

/-- Witness for C6 at a concrete input. -/
theorem arena_store_framed_frames_witness :
    (arena_build 4).WF ∧ ([1, 2, 3] : List Nat).length < 2 ^ 32 ∧
    (readBE32 ((arena_store_framed (arena_build 4) [1, 2, 3]).2.read
        (arena_store_framed (arena_build 4) [1, 2, 3]).1 4) = 3 ∧
     (arena_store_framed (arena_build 4) [1, 2, 3]).2.read
        ((arena_store_framed (arena_build 4) [1, 2, 3]).1 + 4) 3 = [1, 2, 3] ∧
     ∀ further : List (List Nat),
       readBE32 ((storeAll (arena_store_framed (arena_build 4) [1, 2, 3]).2
           further).read (arena_store_framed (arena_build 4) [1, 2, 3]).1 4) = 3 ∧
       (storeAll (arena_store_framed (arena_build 4) [1, 2, 3]).2
           further).read
           ((arena_store_framed (arena_build 4) [1, 2, 3]).1 + 4) 3 = [1, 2, 3]) :=
  ⟨by decide, by decide,
   arena_store_framed_frames (arena_build 4) [1, 2, 3] (by decide) (by decide)⟩

/-- **C8.** Whenever `arena_store` needs more room than the current
capacity (`used + len > capacity`), the arena grows to the smallest
power-of-two capacity admitting the request (reached by doubling from the
current, power-of-two, capacity), and every byte stored before the growth
remains readable, unchanged, at its original index. -/
theorem arena_store_grow_spec (a : Arena) (src : List Nat)
    (h : a.WF) (hpow : ∃ e, a.capacity = 2 ^ e)
    (hneed : a.capacity < a.used + src.length) :
    (∃ m, (arena_store a src).2.capacity = 2 ^ m ∧
       a.used + src.length ≤ 2 ^ m ∧
       ∀ j, a.used + src.length ≤ 2 ^ j → 2 ^ m ≤ 2 ^ j) ∧
    ∀ i n, i + n ≤ a.used → (arena_store a src).2.read i n = a.read i n := by
  obtain ⟨e, he⟩ := hpow
  obtain ⟨h1, h2, h3⟩ := h
  constructor
  · have hcap : (arena_store a src).2.capacity
        = next_power_of_two (a.used + src.length) a.capacity := by
      unfold arena_store arena_check_and_grow
      simp only [if_neg (by omega : ¬ a.used + src.length ≤ a.capacity)]
    obtain ⟨k, hk, hge, hmin⟩ :=
      next_power_of_two_spec (a.used + src.length) a.capacity h3
    refine ⟨e + k, ?_, ?_, ?_⟩
    · rw [hcap, hk, he, pow_add]
    · calc a.used + src.length ≤ a.capacity * 2 ^ k := hge
        _ = 2 ^ e * 2 ^ k := by rw [he]
        _ = 2 ^ (e + k) := (pow_add 2 e k).symm
    · intro j hj
      by_contra hcon
      push_neg at hcon
      have hjlt : j < e + k := (Nat.pow_lt_pow_iff_right (by omega)).mp hcon
      have hje : e < j := by
        have h2e : 2 ^ e < 2 ^ j := by
          calc 2 ^ e = a.capacity := he.symm
            _ < a.used + src.length := hneed
            _ ≤ 2 ^ j := hj
        exact (Nat.pow_lt_pow_iff_right (by omega)).mp h2e
      have hlt := hmin (j - e) (by omega)
      have heq : a.capacity * 2 ^ (j - e) = 2 ^ j := by
        rw [he, ← pow_add]
        congr 1
        omega
      omega
  · exact arena_store_keeps a src ⟨h1, h2, h3⟩

/-- Witness for C8 at a concrete input: a full power-of-two arena that must
grow to accommodate three more bytes. -/
theorem arena_store_grow_spec_witness :
    (Arena.mk 2 2 [7, 9]).WF ∧ (∃ e, (Arena.mk 2 2 [7, 9]).capacity = 2 ^ e) ∧
    (Arena.mk 2 2 [7, 9]).capacity < (Arena.mk 2 2 [7, 9]).used
        + ([5, 6, 8] : List Nat).length ∧
    ((∃ m, (arena_store (Arena.mk 2 2 [7, 9]) [5, 6, 8]).2.capacity = 2 ^ m ∧
        (Arena.mk 2 2 [7, 9]).used + ([5, 6, 8] : List Nat).length ≤ 2 ^ m ∧
        ∀ j, (Arena.mk 2 2 [7, 9]).used + ([5, 6, 8] : List Nat).length ≤ 2 ^ j →
          2 ^ m ≤ 2 ^ j) ∧
     ∀ i n, i + n ≤ (Arena.mk 2 2 [7, 9]).used →
       (arena_store (Arena.mk 2 2 [7, 9]) [5, 6, 8]).2.read i n
         = (Arena.mk 2 2 [7, 9]).read i n) :=
  ⟨by decide, ⟨1, by decide⟩, by decide,
   arena_store_grow_spec (Arena.mk 2 2 [7, 9]) [5, 6, 8] (by decide)
     ⟨1, by decide⟩ (by decide)⟩

/-! ### Probe-sequence reasoning

With `cap = 2^m`, `idx & (cap-1) = idx % cap`, so the position probed at
step `j` for hash value `hv` is `(hv + j) % cap`. -/

theorem probe_start (m hv : Nat) : hv &&& (2 ^ m - 1) = (hv + 0) % 2 ^ m := by
  rw [Nat.and_pow_two_sub_one_eq_mod, Nat.add_zero]

theorem probe_step (m hv s : Nat) :
    ((hv + s) % 2 ^ m + 1) &&& (2 ^ m - 1) = (hv + (s + 1)) % 2 ^ m := by
  rw [Nat.and_pow_two_sub_one_eq_mod, Nat.mod_add_mod, ← Nat.add_assoc]

theorem hash_get_probe_run (hashFn : List Nat → Nat) (h : Hash) (arena : Arena)
    (key : List Nat) (m t : Nat) (hcap : h.cap = 2 ^ m) :
    ∀ fuel s, s ≤ t → t - s < fuel →
      (∀ j, s ≤ j → j < t → stopB hashFn h arena key j = false) →
      stopB hashFn h arena key t = true →
      hash_get_probe hashFn h arena key fuel ((hashFn key + s) % h.cap) s
        = some (resultAt hashFn h key t, t + 1) := by
  intro fuel
  induction fuel with
  | zero => intro s h1 h2; omega
  | succ f ih =>
    intro s hst hfuel hno hstop
    by_cases hs : s = t
    · subst hs
      have hdis : (bucketAt h ((hashFn key + s) % h.cap)).key_len = 0 ∨
          matchesKey hashFn arena key (bucketAt h ((hashFn key + s) % h.cap)) = true := by
        simpa [stopB] using hstop
      unfold hash_get_probe
      by_cases hemp : (bucketAt h ((hashFn key + s) % h.cap)).key_len = 0
      · rw [if_pos hemp]
        simp [resultAt, hemp]
      · have hmat := hdis.resolve_left hemp
        rw [if_neg hemp, if_pos hmat]
        simp [resultAt, hemp]
    · have hslt : s < t := by omega
      have hnos := hno s (Nat.le_refl s) hslt
      have hemp : ¬ (bucketAt h ((hashFn key + s) % h.cap)).key_len = 0 := by
        intro hc
        simp [stopB, hc] at hnos
      have hmat : matchesKey hashFn arena key (bucketAt h ((hashFn key + s) % h.cap))
          = false := by
        cases hm : matchesKey hashFn arena key (bucketAt h ((hashFn key + s) % h.cap)) with
        | false => rfl
        | true => simp [stopB, hm] at hnos
      unfold hash_get_probe
      rw [if_neg hemp, if_neg (by simp [hmat])]
      rw [hcap, probe_step, ← hcap]
      exact ih (s + 1) (by omega) (by omega)
        (fun j hj1 hj2 => hno j (by omega) hj2) hstop

theorem occupiedCount_lt_cap (h : Hash) (p : Nat) (hp : p < h.cap)
    (hempty : (bucketAt h p).key_len = 0) : occupiedCount h < h.cap := by
  have hsub : occupiedPositions h ⊆ Finset.range h.cap := Finset.filter_subset _ _
  have hss : occupiedPositions h ⊂ Finset.range h.cap := by
    rw [Finset.ssubset_iff_of_subset hsub]
    exact ⟨p, Finset.mem_range.mpr hp, by simp [occupiedPositions, hempty]⟩
  have := Finset.card_lt_card hss
  simpa [occupiedCount, Finset.card_range] using this

/-- Probe positions are injective over a window of fewer than `cap`
consecutive steps. -/
theorem probe_pos_injective (cap hv j₁ j₂ : Nat) (h₁ : j₁ < cap) (h₂ : j₂ < cap)
    (heq : (hv + j₁) % cap = (hv + j₂) % cap) : j₁ = j₂ := by
  have hmod : j₁ % cap = j₂ % cap := Nat.ModEq.add_left_cancel' hv heq
  rwa [Nat.mod_eq_of_lt h₁, Nat.mod_eq_of_lt h₂] at hmod

/-- Pigeonhole: if a hash with at least one empty bucket never hit a stop
condition in the first `occupiedCount h + 1` probe steps, the distinct
probed positions would all be occupied — more occupied positions than
exist.  So a stop occurs within `occupiedCount h` steps. -/
theorem stop_exists (hashFn : List Nat → Nat) (h : Hash) (arena : Arena)
    (key : List Nat) (p : Nat) (hp : p < h.cap)
    (hempty : (bucketAt h p).key_len = 0) :
    ∃ j, j ≤ occupiedCount h ∧ stopB hashFn h arena key j = true := by
  by_contra hcon
  push_neg at hcon
  have hnostop : ∀ j, j ≤ occupiedCount h → stopB hashFn h arena key j = false := by
    intro j hj
    cases hb : stopB hashFn h arena key j with
    | false => rfl
    | true => exact absurd hb (hcon j hj)
  have hocc := occupiedCount_lt_cap h p hp hempty
  have hcap0 : 0 < h.cap := by omega
  have hmaps : ∀ j ∈ Finset.range (occupiedCount h + 1),
      (hashFn key + j) % h.cap ∈ occupiedPositions h := by
    intro j hj
    rw [Finset.mem_range] at hj
    have := hnostop j (by omega)
    simp only [stopB, Bool.or_eq_false_iff] at this
    refine Finset.mem_filter.mpr ⟨Finset.mem_range.mpr (Nat.mod_lt _ hcap0), ?_⟩
    simpa using this.1
  have hinj : Set.InjOn (fun j => (hashFn key + j) % h.cap)
      ↑(Finset.range (occupiedCount h + 1)) := by
    intro j₁ hj₁ j₂ hj₂ he
    simp only [Finset.coe_range, Set.mem_Iio] at hj₁ hj₂
    exact probe_pos_injective h.cap (hashFn key) j₁ j₂ (by omega) (by omega) he
  have hcard := Finset.card_le_card_of_injOn _ hmaps hinj
  rw [Finset.card_range] at hcard
  have : occupiedCount h + 1 ≤ occupiedCount h := hcard
  omega

/-- **C7.** On a hash that contains at least one empty bucket, the
linear-probe loop of `hash_get` terminates — ending on the first empty
bucket for a miss or on a matching bucket for a hit — and performs at most
`occupiedCount + 1` probes. -/
theorem hash_get_terminates (hashFn : List Nat → Nat) (h : Hash) (arena : Arena)
    (key : List Nat) (m : Nat) (hcap : h.cap = 2 ^ m)
    (hempty : ∃ p, p < h.cap ∧ (bucketAt h p).key_len = 0) :
    ∃ res probes, hash_get hashFn h arena key = some (res, probes) ∧
      probes ≤ occupiedCount h + 1 ∧
      (∀ j, j + 1 < probes →
        (bucketAt h ((hashFn key + j) % h.cap)).key_len ≠ 0 ∧
        matchesKey hashFn arena key (bucketAt h ((hashFn key + j) % h.cap)) = false) ∧
      (res = none →
        (bucketAt h ((hashFn key + (probes - 1)) % h.cap)).key_len = 0) ∧
      (∀ b, res = some b →
        b = bucketAt h ((hashFn key + (probes - 1)) % h.cap) ∧
        matchesKey hashFn arena key b = true) := by
  obtain ⟨p, hp, hpe⟩ := hempty
  obtain ⟨j₀, hj₀, hstop₀⟩ := stop_exists hashFn h arena key p hp hpe
  have hex : ∃ j, stopB hashFn h arena key j = true := ⟨j₀, hstop₀⟩
  set t := Nat.find hex with ht
  have hstopt : stopB hashFn h arena key t = true := Nat.find_spec hex
  have htle : t ≤ j₀ := Nat.find_min' hex hstop₀
  have hnot : ∀ j, j < t → stopB hashFn h arena key j = false := by
    intro j hj
    cases hb : stopB hashFn h arena key j with
    | false => rfl
    | true => exact absurd hb (Nat.find_min hex hj)
  have hocc := occupiedCount_lt_cap h p hp hpe
  have hrun := hash_get_probe_run hashFn h arena key m t hcap h.cap 0
    (Nat.zero_le t) (by omega) (fun j _ hj => hnot j hj) hstopt
  have hget : hash_get hashFn h arena key = some (resultAt hashFn h key t, t + 1) := by
    unfold hash_get
    rw [hcap, probe_start, ← hcap]
    exact hrun
  refine ⟨resultAt hashFn h key t, t + 1, hget, by omega, ?_, ?_, ?_⟩
  · intro j hj
    have := hnot j (by omega)
    simp only [stopB, Bool.or_eq_false_iff] at this
    exact ⟨by simpa using this.1, this.2⟩
  · intro hres
    simp only [Nat.add_sub_cancel]
    unfold resultAt at hres
    by_cases hemp : (bucketAt h ((hashFn key + t) % h.cap)).key_len = 0
    · exact hemp
    · rw [if_neg hemp] at hres
      exact absurd hres (by simp)
  · intro b hres
    simp only [Nat.add_sub_cancel]
    unfold resultAt at hres
    by_cases hemp : (bucketAt h ((hashFn key + t) % h.cap)).key_len = 0
    · rw [if_pos hemp] at hres
      exact absurd hres (by simp)
    · rw [if_neg hemp] at hres
      have hb : b = bucketAt h ((hashFn key + t) % h.cap) := by
        injection hres with hres
        exact hres.symm
      subst hb
      have hdis : (bucketAt h ((hashFn key + t) % h.cap)).key_len = 0 ∨
          matchesKey hashFn arena key (bucketAt h ((hashFn key + t) % h.cap)) = true := by
        simpa [stopB] using hstopt
      exact ⟨rfl, hdis.resolve_left hemp⟩

/-- Witness for C7 at a concrete input: capacity-2 table, one occupied and
one empty bucket. -/
theorem hash_get_terminates_witness :
    (Hash.mk 2 1 [Bucket.mk 5 1 (.ptr 0) (.ptr 0) 5, Bucket.emptyB]).cap = 2 ^ 1 ∧
    (∃ p, p < (Hash.mk 2 1 [Bucket.mk 5 1 (.ptr 0) (.ptr 0) 5, Bucket.emptyB]).cap ∧
      (bucketAt (Hash.mk 2 1 [Bucket.mk 5 1 (.ptr 0) (.ptr 0) 5, Bucket.emptyB]) p).key_len
        = 0) ∧
    (∃ res probes,
      hash_get (fun _ => 0) (Hash.mk 2 1 [Bucket.mk 5 1 (.ptr 0) (.ptr 0) 5, Bucket.emptyB])
          (arena_build 4) [9] = some (res, probes) ∧
      probes ≤ occupiedCount
          (Hash.mk 2 1 [Bucket.mk 5 1 (.ptr 0) (.ptr 0) 5, Bucket.emptyB]) + 1 ∧
      (∀ j, j + 1 < probes →
        (bucketAt (Hash.mk 2 1 [Bucket.mk 5 1 (.ptr 0) (.ptr 0) 5, Bucket.emptyB])
            (((fun (_ : List Nat) => 0) [9] + j) % 2)).key_len ≠ 0 ∧
        matchesKey (fun _ => 0) (arena_build 4) [9]
          (bucketAt (Hash.mk 2 1 [Bucket.mk 5 1 (.ptr 0) (.ptr 0) 5, Bucket.emptyB])
            (((fun (_ : List Nat) => 0) [9] + j) % 2)) = false) ∧
      (res = none →
        (bucketAt (Hash.mk 2 1 [Bucket.mk 5 1 (.ptr 0) (.ptr 0) 5, Bucket.emptyB])
          (((fun (_ : List Nat) => 0) [9] + (probes - 1)) % 2)).key_len = 0) ∧
      (∀ b, res = some b →
        b = bucketAt (Hash.mk 2 1 [Bucket.mk 5 1 (.ptr 0) (.ptr 0) 5, Bucket.emptyB])
          (((fun (_ : List Nat) => 0) [9] + (probes - 1)) % 2) ∧
        matchesKey (fun _ => 0) (arena_build 4) [9] b = true)) :=
  ⟨rfl, ⟨1, by decide, by decide⟩,
   hash_get_terminates (fun _ => 0)
     (Hash.mk 2 1 [Bucket.mk 5 1 (.ptr 0) (.ptr 0) 5, Bucket.emptyB])
     (arena_build 4) [9] 1 rfl ⟨1, by decide, by decide⟩⟩

theorem firstIns_append (k : List Nat) (ops : List BuildOp) (op : BuildOp) :
    firstIns k (ops ++ [op]) =
      match firstIns k ops with
      | some r => some r
      | none => firstIns k [op] := by
  induction ops with
  | nil => simp [firstIns]
  | cons o rest ih =>
    cases o with
    | ins k' f fl =>
      by_cases hk : k' = k <;> simp [firstIns, hk, ih]
    | ext b => simpa [firstIns] using ih

theorem key_equals_refl (a : List Nat) (len : Nat) : key_equals a a len = true := by
  unfold key_equals
  split <;> simp

theorem key_equals_eq (a b : List Nat) (len : Nat)
    (hla : a.length = len) (hlb : b.length = len) :
    key_equals a b len = true ↔ a = b := by
  unfold key_equals
  split
  · rename_i h4
    subst h4
    have hta : a.take 4 = a := by rw [← hla]; exact List.take_length a
    have htb : b.take 4 = b := by rw [← hlb]; exact List.take_length b
    rw [hta, htb]
    exact beq_iff_eq
  · exact beq_iff_eq

/-- Inversion of a successful `hash_insert_probe`: the returned slot is the
first empty position along the probe sequence. -/
theorem hash_insert_probe_inv (h : Hash) (m : Nat) (hcap : h.cap = 2 ^ m) (hv : Nat) :
    ∀ fuel s i, hash_insert_probe h fuel ((hv + s) % h.cap) = some i →
      ∃ e, s ≤ e ∧ e - s < fuel ∧ i = (hv + e) % h.cap ∧
        (bucketAt h ((hv + e) % h.cap)).key_len = 0 ∧
        ∀ j, s ≤ j → j < e → (bucketAt h ((hv + j) % h.cap)).key_len ≠ 0 := by
  intro fuel
  induction fuel with
  | zero => intro s i hp; exact absurd hp (by simp [hash_insert_probe])
  | succ f ih =>
    intro s i hp
    unfold hash_insert_probe at hp
    by_cases hemp : (bucketAt h ((hv + s) % h.cap)).key_len = 0
    · rw [if_pos hemp] at hp
      refine ⟨s, Nat.le_refl s, by omega, (Option.some_inj.mp hp).symm, hemp, by omega⟩
    · rw [if_neg hemp] at hp
      rw [hcap, probe_step, ← hcap] at hp
      obtain ⟨e, he1, he2, he3, he4, he5⟩ := ih (s + 1) i hp
      refine ⟨e, by omega, by omega, he3, he4, ?_⟩
      intro j hj1 hj2
      rcases Nat.eq_or_lt_of_le hj1 with rfl | hlt
      · exact hemp
      · exact he5 j (by omega) hj2

/-- Unfolding a successful `hash_insert` (`hash.c` lines 76-97). -/
theorem hash_insert_some (hashFn : List Nat → Nat) (h : Hash) (arena : Arena)
    (key : List Nat) (frame frame_len : Nat) (h' : Hash) (a' : Arena) (m : Nat)
    (hcap : h.cap = 2 ^ m)
    (hins : hash_insert hashFn h arena key frame frame_len = some (h', a')) :
    ∃ e < h.cap, (bucketAt h ((hashFn key + e) % h.cap)).key_len = 0 ∧
      (∀ j < e, (bucketAt h ((hashFn key + j) % h.cap)).key_len ≠ 0) ∧
      h' = { h with
             tab := h.tab.set ((hashFn key + e) % h.cap)
               { hash := hashFn key, key_len := key.length,
                 key_ptr := .idx (arena_store arena key).1,
                 frame_ptr := .idx frame, frame_len := frame_len },
             used := h.used + 1 } ∧
      a' = (arena_store arena key).2 := by
  unfold hash_insert at hins
  cases hprobe : hash_insert_probe h h.cap (hashFn key &&& (h.cap - 1)) with
  | none => rw [hprobe] at hins; exact absurd hins (by simp)
  | some i =>
    rw [hprobe] at hins
    rw [hcap, probe_start, ← hcap] at hprobe
    obtain ⟨e, _, he2, he3, he4, he5⟩ := hash_insert_probe_inv h m hcap (hashFn key)
      h.cap 0 i hprobe
    obtain ⟨hh, ha⟩ := Prod.mk.injEq .. ▸ Option.some_inj.mp hins
    subst he3
    exact ⟨e, by omega, he4, fun j hj => he5 j (Nat.zero_le j) hj, hh.symm, ha.symm⟩

theorem hash_finalize_eq_map (h : Hash) :
    hash_finalize_pointers h = { h with tab := h.tab.map finB } := rfl

theorem bucketAt_finalize (h : Hash) (p : Nat) (hp : p < h.tab.length) :
    bucketAt (hash_finalize_pointers h) p = finB (bucketAt h p) := by
  rw [hash_finalize_eq_map]
  unfold bucketAt
  simp only [List.getD, List.get?_eq_getElem?]
  rw [List.getElem?_map finB h.tab p, List.getElem?_eq_getElem hp]
  rfl

theorem bucketAt_set_ne (tab : List Bucket) (q p : Nat) (x : Bucket) (hne : p ≠ q) :
    (tab.set q x).getD p Bucket.emptyB = tab.getD p Bucket.emptyB := by
  simp [List.getD, List.getElem?_set_ne (Ne.symm hne)]

theorem bucketAt_set_eq (tab : List Bucket) (q : Nat) (x : Bucket)
    (hq : q < tab.length) :
    (tab.set q x).getD q Bucket.emptyB = x := by
  simp [List.getD, List.getElem?_set_self hq]

theorem bucketAt_hash_build (c p : Nat) : bucketAt (hash_build c) p = Bucket.emptyB := by
  unfold bucketAt hash_build
  by_cases hp : p < c
  · simp [List.getD, List.getElem?_replicate, hp]
  · rw [List.getD_eq_getElem?_getD, List.getElem?_eq_none
        (by simp only [List.length_replicate]; omega)]
    exact Option.getD_none

theorem inv_init (hashFn : List Nat → Nat) (cap : Nat) (a0 : Arena) (ha : a0.WF) :
    Inv hashFn cap [] (hash_build cap) a0 := by
  refine ⟨rfl, by simp [hash_build], ha, ?_, ?_, ?_⟩
  · intro p _ hocc
    exact absurd (by rw [bucketAt_hash_build]; rfl) hocc
  · intro k _ f fl hfi
    exact absurd hfi (by simp [firstIns])
  · intro k _ _ p _ hocc
    exact absurd (by rw [bucketAt_hash_build]; rfl) hocc

/-- Key bytes referenced by a bucket are unchanged by a later store into
the arena, as long as the reference is below the old write cursor. -/
theorem readKeyRaw_store_stable (a : Arena) (ha : a.WF) (src : List Nat) (b : Bucket)
    (i : Nat) (hb : b.key_ptr = Ref.idx i) (hbound : i + b.key_len ≤ a.used) :
    readKeyRaw (arena_store a src).2 b = readKeyRaw a b := by
  unfold readKeyRaw
  rw [hb]
  exact arena_store_keeps a src ha i _ hbound

theorem inv_step (hashFn : List Nat → Nat) (cap m : Nat) (hm : cap = 2 ^ m)
    (ops : List BuildOp) (h : Hash) (a : Arena) (op : BuildOp)
    (h' : Hash) (a' : Arena)
    (hinv : Inv hashFn cap ops h a)
    (hstep : buildStep hashFn (some (h, a)) op = some (h', a')) :
    Inv hashFn cap (ops ++ [op]) h' a' := by
  obtain ⟨hcap, hlen, hawf, hbw, hfirst, habs⟩ := hinv
  have hcap0 : 0 < cap := by rw [hm]; positivity
  cases op with
  | ext b =>
    simp only [buildStep] at hstep
    obtain ⟨hh, ha'⟩ := Prod.mk.injEq .. ▸ Option.some_inj.mp hstep
    subst hh; subst ha'
    have hstab : ∀ p, p < cap → (bucketAt h p).key_len ≠ 0 →
        readKeyRaw (arena_store a b).2 (bucketAt h p) = readKeyRaw a (bucketAt h p) := by
      intro p hp hocc
      obtain ⟨⟨i, hki, hbound⟩, _, _⟩ := hbw p hp hocc
      exact readKeyRaw_store_stable a hawf b _ i hki hbound
    have hmono : a.used ≤ (arena_store a b).2.used := by
      rw [arena_store_used]; omega
    refine ⟨hcap, hlen, arena_store_wf a b hawf, ?_, ?_, ?_⟩
    · intro p hp hocc
      obtain ⟨⟨i, hki, hbound⟩, hl, hh⟩ := hbw p hp hocc
      exact ⟨⟨i, hki, by omega⟩, by rw [hstab p hp hocc]; exact hl,
        by rw [hstab p hp hocc]; exact hh⟩
    · intro k hk f fl hfi
      rw [firstIns_append] at hfi
      cases hfo : firstIns k ops with
      | some r =>
        rw [hfo] at hfi
        obtain ⟨d, hd, hocc, hkey, hfl, hfp, hpre⟩ :=
          hfirst k hk f fl (by rw [hfo]; exact hfi)
        refine ⟨d, hd, hocc, ?_, hfl, hfp, ?_⟩
        · rw [hstab _ (Nat.mod_lt _ hcap0) hocc]; exact hkey
        · intro j hj
          obtain ⟨ho, hne⟩ := hpre j hj
          exact ⟨ho, by rw [hstab _ (Nat.mod_lt _ hcap0) ho]; exact hne⟩
      | none =>
        rw [hfo] at hfi
        exact absurd hfi (by simp [firstIns])
    · intro k hk hfi p hp hocc
      rw [firstIns_append] at hfi
      cases hfo : firstIns k ops with
      | some r => rw [hfo] at hfi; exact absurd hfi (by simp)
      | none =>
        rw [hstab p hp hocc]
        exact habs k hk hfo p hp hocc
  | ins k f fl =>
    simp only [buildStep] at hstep
    have hcapm : h.cap = 2 ^ m := by rw [hcap, hm]
    obtain ⟨e, he, hempq, hoccpre, hh', ha'⟩ :=
      hash_insert_some hashFn h a k f fl h' a' m hcapm hstep
    rw [hcap] at he hempq hoccpre hh'
    have hkidx : (arena_store a k).1 = a.used := arena_store_index a k
    have hstab : ∀ p, p < cap → (bucketAt h p).key_len ≠ 0 →
        readKeyRaw (arena_store a k).2 (bucketAt h p) = readKeyRaw a (bucketAt h p) := by
      intro p hp hocc
      obtain ⟨⟨i, hki, hbound⟩, _, _⟩ := hbw p hp hocc
      exact readKeyRaw_store_stable a hawf k _ i hki hbound
    have hmono : a.used ≤ (arena_store a k).2.used := by
      rw [arena_store_used]; omega
    have hused' : (arena_store a k).2.used = a.used + k.length := arena_store_used a k
    set q := (hashFn k + e) % cap with hq
    have hqcap : q < cap := Nat.mod_lt _ hcap0
    set newb : Bucket :=
      { hash := hashFn k, key_len := k.length,
        key_ptr := .idx (arena_store a k).1,
        frame_ptr := .idx f, frame_len := fl } with hnewb
    have htab' : h'.tab = h.tab.set q newb := by rw [hh']
    have hcap' : h'.cap = cap := by rw [hh']
    have hlen' : h'.tab.length = cap := by rw [htab', List.length_set]; exact hlen
    have hat_ne : ∀ p, p ≠ q → bucketAt h' p = bucketAt h p := by
      intro p hne
      unfold bucketAt
      rw [htab']
      exact bucketAt_set_ne h.tab q p newb hne
    have hat_q : bucketAt h' q = newb := by
      unfold bucketAt
      rw [htab']
      exact bucketAt_set_eq h.tab q newb (by omega)
    have hocc_ne_q : ∀ p, (bucketAt h p).key_len ≠ 0 → p ≠ q := by
      intro p hocc hpe
      rw [hpe] at hocc
      exact hocc hempq
    have hreadnew : readKeyRaw (arena_store a k).2 newb = k := by
      unfold readKeyRaw
      rw [hnewb]
      simp only [hkidx]
      exact arena_store_read_back a k hawf
    subst ha'
    refine ⟨hcap', hlen', arena_store_wf a k hawf, ?_, ?_, ?_⟩
    · intro p hp hocc
      by_cases hpq : p = q
      · subst hpq
        rw [hat_q] at hocc ⊢
        refine ⟨⟨(arena_store a k).1, rfl, ?_⟩, ?_, ?_⟩
        · show (arena_store a k).1 + newb.key_len ≤ _
          rw [hkidx, hused']
        · rw [hreadnew]
        · rw [hreadnew]
      · rw [hat_ne p hpq] at hocc ⊢
        obtain ⟨⟨i, hki, hbound⟩, hl, hhh⟩ := hbw p hp hocc
        exact ⟨⟨i, hki, by omega⟩, by rw [hstab p hp hocc]; exact hl,
          by rw [hstab p hp hocc]; exact hhh⟩
    · intro k' hk' f' fl' hfi
      rw [firstIns_append] at hfi
      cases hfo : firstIns k' ops with
      | some r =>
        rw [hfo] at hfi
        obtain ⟨d, hd, hocc, hkey, hfl, hfp, hpre⟩ :=
          hfirst k' hk' f' fl' (by rw [hfo]; exact hfi)
        have hdq : (hashFn k' + d) % cap ≠ q := hocc_ne_q _ hocc
        refine ⟨d, hd, ?_, ?_, ?_, ?_, ?_⟩
        · rw [hat_ne _ hdq]; exact hocc
        · rw [hat_ne _ hdq, hstab _ (Nat.mod_lt _ hcap0) hocc]; exact hkey
        · rw [hat_ne _ hdq]; exact hfl
        · rw [hat_ne _ hdq]; exact hfp
        · intro j hj
          obtain ⟨ho, hne⟩ := hpre j hj
          have hjq : (hashFn k' + j) % cap ≠ q := hocc_ne_q _ ho
          exact ⟨by rw [hat_ne _ hjq]; exact ho,
            by rw [hat_ne _ hjq, hstab _ (Nat.mod_lt _ hcap0) ho]; exact hne⟩
      | none =>
        rw [hfo] at hfi
        have : (if k = k' then some (f, fl) else none) = some (f', fl') := hfi
        by_cases hkk : k = k'
        · rw [if_pos hkk] at this
          obtain ⟨hf', hfl'⟩ := Prod.mk.injEq .. ▸ Option.some_inj.mp this
          subst hkk; subst hf'; subst hfl'
          refine ⟨e, he, ?_, ?_, ?_, ?_, ?_⟩
          · rw [hat_q, hnewb]
            simpa using hk'
          · rw [hat_q, hreadnew]
          · rw [hat_q]
          · rw [hat_q]
          · intro j hj
            have ho := hoccpre j hj
            have hjq : (hashFn k + j) % cap ≠ q := hocc_ne_q _ ho
            refine ⟨by rw [hat_ne _ hjq]; exact ho, ?_⟩
            rw [hat_ne _ hjq, hstab _ (Nat.mod_lt _ hcap0) ho]
            exact habs k hk' hfo _ (Nat.mod_lt _ hcap0) ho
        · rw [if_neg hkk] at this
          exact absurd this (by simp)
    · intro k' hk' hfi p hp hocc
      rw [firstIns_append] at hfi
      cases hfo : firstIns k' ops with
      | some r => rw [hfo] at hfi; exact absurd hfi (by simp)
      | none =>
        rw [hfo] at hfi
        have hkk : k ≠ k' := by
          intro hkk
          rw [show firstIns k' [BuildOp.ins k f fl]
              = (if k = k' then some (f, fl) else none) from rfl, if_pos hkk] at hfi
          exact absurd hfi (by simp)
        by_cases hpq : p = q
        · subst hpq
          rw [hat_q] at hocc ⊢
          rw [hreadnew]
          exact hkk
        · rw [hat_ne p hpq] at hocc ⊢
          rw [hstab p hp hocc]
          exact habs k' hk' hfo p hp hocc

theorem build_none (hashFn : List Nat → Nat) (ops : List BuildOp) :
    ops.foldl (buildStep hashFn) none = none := by
  induction ops with
  | nil => rfl
  | cons op rest ih => exact ih

theorem build_inv (hashFn : List Nat → Nat) (cap m : Nat) (hm : cap = 2 ^ m) :
    ∀ (ops pre : List BuildOp) (h0 : Hash) (a0 : Arena) (h : Hash) (a : Arena),
      Inv hashFn cap pre h0 a0 →
      build hashFn (h0, a0) ops = some (h, a) →
      Inv hashFn cap (pre ++ ops) h a := by
  intro ops
  induction ops with
  | nil =>
    intro pre h0 a0 h a hinv hb
    obtain ⟨hh, ha⟩ := Prod.mk.injEq .. ▸ Option.some_inj.mp hb
    rw [List.append_nil, ← hh, ← ha]
    exact hinv
  | cons op rest ih =>
    intro pre h0 a0 h a hinv hb
    unfold build at hb
    rw [List.foldl_cons] at hb
    cases hstep : buildStep hashFn (some (h0, a0)) op with
    | none =>
      rw [hstep, build_none] at hb
      exact absurd hb (by simp)
    | some st =>
      rw [hstep] at hb
      have hinv' := inv_step hashFn cap m hm pre h0 a0 op st.1 st.2 hinv
        (by rw [hstep])
      have hres := ih (pre ++ [op]) st.1 st.2 h a hinv' hb
      rwa [List.append_assoc] at hres

theorem finB_occ (b : Bucket) (i : Nat) (hocc : b.key_len ≠ 0)
    (hki : b.key_ptr = Ref.idx i) :
    (finB b).key_len = b.key_len ∧ (finB b).hash = b.hash ∧
    (finB b).frame_len = b.frame_len ∧ (finB b).key_ptr = Ref.ptr i := by
  unfold finB
  rw [if_neg hocc, hki]
  exact ⟨rfl, rfl, rfl, rfl⟩

theorem deref_finB (a : Arena) (b : Bucket) (i : Nat) (hocc : b.key_len ≠ 0)
    (hki : b.key_ptr = Ref.idx i) :
    derefBytes a (finB b).key_ptr (finB b).key_len = readKeyRaw a b := by
  obtain ⟨hkl, _, _, hkp⟩ := finB_occ b i hocc hki
  rw [hkp, hkl]
  unfold derefBytes readKeyRaw
  rw [hki]

theorem matches_finB_true (hashFn : List Nat → Nat) (a : Arena) (k : List Nat)
    (b : Bucket) (i : Nat) (hocc : b.key_len ≠ 0) (hki : b.key_ptr = Ref.idx i)
    (hkey : readKeyRaw a b = k)
    (hh : b.hash = hashFn (readKeyRaw a b))
    (hl : (readKeyRaw a b).length = b.key_len) :
    matchesKey hashFn a k (finB b) = true := by
  obtain ⟨hkl, hhs, _, _⟩ := finB_occ b i hocc hki
  unfold matchesKey
  rw [deref_finB a b i hocc hki, hkl, hhs, hkey] at *
  rw [hh, hkey]
  have hlk : b.key_len = k.length := by rw [← hl, hkey]
  rw [hlk]
  simp [key_equals_refl]

theorem matches_finB_false (hashFn : List Nat → Nat) (a : Arena) (k : List Nat)
    (b : Bucket) (i : Nat) (hocc : b.key_len ≠ 0) (hki : b.key_ptr = Ref.idx i)
    (hkey : readKeyRaw a b ≠ k)
    (hl : (readKeyRaw a b).length = b.key_len) :
    matchesKey hashFn a k (finB b) = false := by
  obtain ⟨hkl, hhs, _, _⟩ := finB_occ b i hocc hki
  cases hmb : matchesKey hashFn a k (finB b) with
  | false => rfl
  | true =>
    exfalso
    unfold matchesKey at hmb
    rw [deref_finB a b i hocc hki, hkl, hhs] at hmb
    simp only [Bool.and_eq_true, beq_iff_eq] at hmb
    obtain ⟨⟨_, hlenk⟩, heq⟩ := hmb
    exact hkey ((key_equals_eq _ _ _ hl (by rw [← hlenk])).mp heq)

/-- **C3 (amended).** For every hash built by a history of `hash_insert`
calls (interleaved with arbitrary other stores into the shared arena)
whose load factor stays below 1 (an empty bucket remains), and every key
`k` of nonzero length inserted via `hash_insert`, a subsequent `hash_get`
after `hash_finalize_pointers` returns a non-null bucket whose stored key
bytes equal `k` byte-for-byte and whose `frame_len` equals the `frame_len`
passed at the first insertion of `k`.  (The unamended claim fails for
zero-length keys and for the later insertions of a duplicated key; see the
counterexample.) -/
theorem hash_insert_then_get (hashFn : List Nat → Nat) (m : Nat) (a0 : Arena)
    (ops : List BuildOp) (h : Hash) (a : Arena) (k : List Nat) (f fl : Nat)
    (ha0 : a0.WF)
    (hb : build hashFn (hash_build (2 ^ m), a0) ops = some (h, a))
    (hk : k ≠ [])
    (hfi : firstIns k ops = some (f, fl))
    (hload : ∃ p, p < h.cap ∧ (bucketAt h p).key_len = 0) :
    ∃ b probes,
      hash_get hashFn (hash_finalize_pointers h) a k = some (some b, probes) ∧
      derefBytes a b.key_ptr b.key_len = k ∧
      b.key_len = k.length ∧
      b.frame_len = fl := by
  have hinv : Inv hashFn (2 ^ m) ops h a := by
    have hres := build_inv hashFn (2 ^ m) m rfl ops [] (hash_build (2 ^ m)) a0 h a
      (inv_init hashFn (2 ^ m) a0 ha0) hb
    simpa using hres
  obtain ⟨hcap, hlen, hawf, hbw, hfirst, _⟩ := hinv
  have hcap0 : 0 < 2 ^ m := by positivity
  obtain ⟨d, hd, hocc, hkey, hfl, _, hpre⟩ := hfirst k hk f fl hfi
  have hc2m : (hash_finalize_pointers h).cap = 2 ^ m := hcap
  have hat2 : ∀ p, p < 2 ^ m →
      bucketAt (hash_finalize_pointers h) p = finB (bucketAt h p) := by
    intro p hp
    exact bucketAt_finalize h p (by omega)
  have hstop_d : stopB hashFn (hash_finalize_pointers h) a k d = true := by
    unfold stopB
    rw [hc2m, hat2 _ (Nat.mod_lt _ hcap0)]
    obtain ⟨⟨i, hki, _⟩, hl, hhs⟩ := hbw _ (Nat.mod_lt _ hcap0) hocc
    rw [matches_finB_true hashFn a k _ i hocc hki hkey hhs hl]
    simp
  have hstop_pre : ∀ j, j < d → stopB hashFn (hash_finalize_pointers h) a k j = false := by
    intro j hj
    obtain ⟨ho, hne⟩ := hpre j hj
    unfold stopB
    rw [hc2m, hat2 _ (Nat.mod_lt _ hcap0)]
    obtain ⟨⟨i, hki, _⟩, hl, _⟩ := hbw _ (Nat.mod_lt _ hcap0) ho
    rw [matches_finB_false hashFn a k _ i ho hki hne hl]
    have hkl2 : (finB (bucketAt h ((hashFn k + j) % 2 ^ m))).key_len ≠ 0 := by
      rw [(finB_occ _ i ho hki).1]
      exact ho
    simp [hkl2]
  have hrun := hash_get_probe_run hashFn (hash_finalize_pointers h) a k m d hc2m
    (hash_finalize_pointers h).cap 0 (Nat.zero_le d) (by rw [hc2m]; omega)
    (fun j _ hj => hstop_pre j hj) hstop_d
  have hget : hash_get hashFn (hash_finalize_pointers h) a k
      = some (resultAt hashFn (hash_finalize_pointers h) k d, d + 1) := by
    unfold hash_get
    rw [hc2m, probe_start, ← hc2m]
    exact hrun
  obtain ⟨⟨i, hki, _⟩, hl, _⟩ := hbw _ (Nat.mod_lt _ hcap0) hocc
  have hres : resultAt hashFn (hash_finalize_pointers h) k d
      = some (finB (bucketAt h ((hashFn k + d) % 2 ^ m))) := by
    unfold resultAt
    rw [hc2m, hat2 _ (Nat.mod_lt _ hcap0)]
    rw [if_neg (by rw [(finB_occ _ i hocc hki).1]; exact hocc)]
  refine ⟨finB (bucketAt h ((hashFn k + d) % 2 ^ m)), d + 1, ?_, ?_, ?_, ?_⟩
  · rw [hget, hres]
  · rw [deref_finB a _ i hocc hki]
    exact hkey
  · rw [(finB_occ _ i hocc hki).1, ← hl, hkey]
  · rw [(finB_occ _ i hocc hki).2.2.1]
    exact hfl

/-- Counterexample to C3 as stated.  Two concrete violations: (a) the
zero-length key `[]` is inserted into a capacity-4 hash whose load factor
stays below 1, yet the finalized `hash_get` returns no bucket (an
inserted zero-length key writes `key_len = 0`, the empty marker); (b) key
`[3]` is inserted twice, the second time with `frame_len = 9`, yet the
finalized `hash_get` returns the bucket of the first insertion with
`frame_len = 7 ≠ 9`. -/
theorem hash_insert_then_get_counterexample :
    ((build cexHashFn (hash_build 4, arena_build 8) [BuildOp.ins [] 0 5]).map
        (fun st => (hash_get cexHashFn (hash_finalize_pointers st.1) st.2 [],
                    decide (occupiedCount st.1 < st.1.cap))))
      = some (some (none, 1), true) ∧
    ((build cexHashFn (hash_build 4, arena_build 8)
        [BuildOp.ins [3] 10 7, BuildOp.ins [3] 20 9]).map
        (fun st => ((hash_get cexHashFn (hash_finalize_pointers st.1) st.2 [3]).map
                      (fun r => r.1.map Bucket.frame_len),
                    decide (occupiedCount st.1 < st.1.cap))))
      = some (some (some 7), true) ∧ (7 : Nat) ≠ 9 := by
  refine ⟨?_, ?_, by decide⟩ <;> decide

/-- Witness for the amended C3 at a concrete input. -/
theorem hash_insert_then_get_witness :
    (arena_build 8).WF ∧
    build cexHashFn (hash_build (2 ^ 2), arena_build 8) [BuildOp.ins [5, 6] 3 9]
      = some (c3Hash, c3Arena) ∧
    ([5, 6] : List Nat) ≠ [] ∧
    firstIns [5, 6] [BuildOp.ins [5, 6] 3 9] = some (3, 9) ∧
    (∃ p, p < c3Hash.cap ∧ (bucketAt c3Hash p).key_len = 0) ∧
    (∃ b probes,
      hash_get cexHashFn (hash_finalize_pointers c3Hash) c3Arena [5, 6]
        = some (some b, probes) ∧
      derefBytes c3Arena b.key_ptr b.key_len = [5, 6] ∧
      b.key_len = ([5, 6] : List Nat).length ∧
      b.frame_len = 9) :=
  ⟨by decide, by decide, by decide, by decide, ⟨1, by decide, by decide⟩,
   hash_insert_then_get cexHashFn 2 (arena_build 8) [BuildOp.ins [5, 6] 3 9]
     c3Hash c3Arena [5, 6] 3 9 (by decide) (by decide) (by decide) (by decide)
     ⟨1, by decide, by decide⟩⟩

/-- **C1 is violated by the code.** `table_load_from_db` stores `pos` into
`current_slot` unconditionally: when the driver query fails (touching
nothing and reporting 0 rows), the refresh is not aborted — the freshly
reset, empty slot is published, `current_slot` does not keep its
pre-refresh value, and `last_loaded` is advanced to `now` (so the next
tick does not retry until another full period elapses). -/
theorem table_load_publishes_on_failure (dbSize : Nat) (t : Table) (now : Nat)
    (helig : t.period ≤ now - t.stats.last_loaded)
    (hslot : t.current_slot ≤ 1) :
    (table_load_from_db dbSize failingQuery t now true).1.current_slot
        = 1 - t.current_slot ∧
    (table_load_from_db dbSize failingQuery t now true).1.current_slot
        ≠ t.current_slot ∧
    (table_load_from_db dbSize failingQuery t now true).1.stats.last_loaded = now := by
  unfold table_load_from_db
  rw [if_neg (by omega)]
  refine ⟨?_, ?_, ?_⟩ <;> (simp; try omega)

/-- Witness for C1 at a concrete input: a one-index table whose period has
elapsed, with a failing row query. -/
theorem table_load_publishes_on_failure_witness :
    (Table.mk 0 5 1 [⟨0, ConfigIndexType.int⟩] ⟨0, 0, 0, 0⟩ 0
        ⟨arena_build 4, [some (hash_build 2)]⟩ ⟨arena_build 4, [none]⟩).period
      ≤ 10 - (Table.mk 0 5 1 [⟨0, ConfigIndexType.int⟩] ⟨0, 0, 0, 0⟩ 0
        ⟨arena_build 4, [some (hash_build 2)]⟩ ⟨arena_build 4, [none]⟩).stats.last_loaded ∧
    (Table.mk 0 5 1 [⟨0, ConfigIndexType.int⟩] ⟨0, 0, 0, 0⟩ 0
        ⟨arena_build 4, [some (hash_build 2)]⟩ ⟨arena_build 4, [none]⟩).current_slot ≤ 1 ∧
    ((table_load_from_db 7 failingQuery
        (Table.mk 0 5 1 [⟨0, ConfigIndexType.int⟩] ⟨0, 0, 0, 0⟩ 0
          ⟨arena_build 4, [some (hash_build 2)]⟩ ⟨arena_build 4, [none]⟩)
        10 true).1.current_slot
        = 1 - (Table.mk 0 5 1 [⟨0, ConfigIndexType.int⟩] ⟨0, 0, 0, 0⟩ 0
          ⟨arena_build 4, [some (hash_build 2)]⟩ ⟨arena_build 4, [none]⟩).current_slot ∧
     (table_load_from_db 7 failingQuery
        (Table.mk 0 5 1 [⟨0, ConfigIndexType.int⟩] ⟨0, 0, 0, 0⟩ 0
          ⟨arena_build 4, [some (hash_build 2)]⟩ ⟨arena_build 4, [none]⟩)
        10 true).1.current_slot
        ≠ (Table.mk 0 5 1 [⟨0, ConfigIndexType.int⟩] ⟨0, 0, 0, 0⟩ 0
          ⟨arena_build 4, [some (hash_build 2)]⟩ ⟨arena_build 4, [none]⟩).current_slot ∧
     (table_load_from_db 7 failingQuery
        (Table.mk 0 5 1 [⟨0, ConfigIndexType.int⟩] ⟨0, 0, 0, 0⟩ 0
          ⟨arena_build 4, [some (hash_build 2)]⟩ ⟨arena_build 4, [none]⟩)
        10 true).1.stats.last_loaded = 10) :=
  ⟨by decide, by decide,
   table_load_publishes_on_failure 7
     (Table.mk 0 5 1 [⟨0, ConfigIndexType.int⟩] ⟨0, 0, 0, 0⟩ 0
       ⟨arena_build 4, [some (hash_build 2)]⟩ ⟨arena_build 4, [none]⟩)
     10 (by decide) (by decide)⟩

/-- **C2 is violated by the code.** The refresh path of
`table_load_from_db` never calls `hash_finalize_pointers` (only the tests
do, and `hash.h` explicitly requires it "BEFORE making the hash visible to
readers"): after a refresh that loaded one row, the hash reachable through
the published `current_slot` still has an occupied bucket whose key
reference is an arena index (`Ref.idx`), not a converted pointer. -/
theorem refresh_publishes_unfinalized_hash :
    (table_load_from_db 1 (queryOneRow cexHashFn [42, 0, 0, 0] [1, 2, 3])
        c2Table 10 true).1.current_slot = 1 ∧
    ∃ hsh p i,
      (slotAt (table_load_from_db 1 (queryOneRow cexHashFn [42, 0, 0, 0] [1, 2, 3])
          c2Table 10 true).1
        (table_load_from_db 1 (queryOneRow cexHashFn [42, 0, 0, 0] [1, 2, 3])
          c2Table 10 true).1.current_slot).indexes.getD 0 none = some hsh ∧
      p < hsh.cap ∧ (bucketAt hsh p).key_len ≠ 0 ∧
      (bucketAt hsh p).key_ptr = Ref.idx i := by
  refine ⟨by decide, ?_⟩
  refine ⟨Hash.mk 2 1 [Bucket.mk 0 4 (.idx 7) (.idx 0) 7, Bucket.emptyB], 0, 7,
    by decide, by decide, by decide, by decide⟩

theorem zero_wire : ∃ body : List Nat, be32 0 = be32 body.length ++ body ∧
    body.length < 2 ^ 32 :=
  ⟨[], by simp, by norm_num⟩

/-- Every dispatch result starts with a 4-byte big-endian payload length. -/
theorem dispatch_wire (env : Env) (c : Conn) (key : List Nat)
    (hwf : WellFramed env)
    (hschema : env.schema.length < 2 ^ 32) (hstats : env.stats.length < 2 ^ 32) :
    ∃ body, (dispatch env c key).1 = be32 body.length ++ body ∧
      body.length < 2 ^ 32 := by
  unfold dispatch
  by_cases h1 : c.discarding = true
  · rw [if_pos h1]
    exact zero_wire
  · rw [if_neg h1]
    by_cases h2 : c.action = 70
    · rw [if_pos h2]
      cases hf : env.fetch c.tableId c.indexId key with
      | none => exact zero_wire
      | some frame =>
        dsimp only
        by_cases h3 : frame.length ≠ 0
        · rw [if_pos h3]
          exact hwf _ _ _ _ hf
        · rw [if_neg h3]
          exact zero_wire
    · rw [if_neg h2]
      by_cases h4 : c.action = 68
      · rw [if_pos h4]
        by_cases h5 : env.schema.length ≠ 0
        · rw [if_pos h5]
          exact ⟨env.schema, rfl, hschema⟩
        · rw [if_neg h5]
          exact zero_wire
      · rw [if_neg h4]
        by_cases h6 : c.action = 115
        · rw [if_pos h6]
          by_cases h7 : env.stats.length ≠ 0
          · rw [if_pos h7]
            exact ⟨env.stats, rfl, hstats⟩
          · rw [if_neg h7]
            exact zero_wire
        · rw [if_neg h6]
          by_cases h8 : c.action = 113
          · rw [if_pos h8]
            exact ⟨byeBytes, rfl, by norm_num [byeBytes]⟩
          · rw [if_neg h8]
            exact zero_wire

theorem connStep2_wire (env : Env) (c c2 : Conn) (resp : List Nat) (q : Bool)
    (hwf : WellFramed env)
    (hschema : env.schema.length < 2 ^ 32) (hstats : env.stats.length < 2 ^ 32)
    (hstep : connStep2 env c = .emit c2 resp q) :
    ∃ body, resp = be32 body.length ++ body ∧ body.length < 2 ^ 32 := by
  unfold connStep2 at hstep
  by_cases hd : c.discarding = true
  · rw [if_pos hd] at hstep
    by_cases hrem : c.keyHave + min (c.keyLen - c.keyHave) (c.rbuf.length - c.rbufPos)
        < c.keyLen
    · rw [if_pos hrem] at hstep
      simp at hstep
    · rw [if_neg hrem] at hstep
      unfold dispatchEmit at hstep
      obtain ⟨_, hresp, _⟩ := StepResult.emit.injEq .. ▸ hstep
      rw [← hresp]
      exact dispatch_wire env _ _ hwf hschema hstats
  · rw [if_neg hd] at hstep
    by_cases hav : c.rbuf.length - c.rbufPos < c.keyLen
    · rw [if_pos hav] at hstep
      simp at hstep
    · rw [if_neg hav] at hstep
      unfold dispatchEmit at hstep
      obtain ⟨_, hresp, _⟩ := StepResult.emit.injEq .. ▸ hstep
      rw [← hresp]
      exact dispatch_wire env _ _ hwf hschema hstats

/-- **C4.** Whenever the request loop dispatches a parsed request (the
version byte was 0x11 — otherwise the connection closes — and the key
bytes were consumed), it emits exactly one response, and the first 4 bytes
of that response on the wire are a big-endian payload length.  This covers
every dispatch path, including FETCH hits, which prepend no length header
because the framed arena slice already begins with its 4-byte big-endian
length. -/
theorem connStep_emits_wire_format (env : Env) (c c2 : Conn) (resp : List Nat)
    (q : Bool)
    (hwf : WellFramed env)
    (hschema : env.schema.length < 2 ^ 32) (hstats : env.stats.length < 2 ^ 32)
    (hstep : connStep env c = .emit c2 resp q) :
    ∃ body, resp = be32 body.length ++ body ∧ body.length < 2 ^ 32 := by
  unfold connStep at hstep
  by_cases hh : c.hdrHave < 8
  · rw [if_pos hh] at hstep
    by_cases hav : c.rbuf.length - c.rbufPos < 8
    · rw [if_pos hav] at hstep
      simp at hstep
    · rw [if_neg hav] at hstep
      by_cases hv : ((c.rbuf.drop c.rbufPos).take 8).getD 0 0 ≠ MELIAN_HEADER_VERSION
      · rw [if_pos hv] at hstep
        simp at hstep
      · rw [if_neg hv] at hstep
        exact connStep2_wire env _ c2 resp q hwf hschema hstats hstep
  · rw [if_neg hh] at hstep
    exact connStep2_wire env c c2 resp q hwf hschema hstats hstep

/-- Witness for C4 at a concrete input: a FETCH hit served by reference to
an already-framed slice. -/
theorem connStep_emits_wire_format_witness :
    WellFramed c4Env ∧ c4Env.schema.length < 2 ^ 32 ∧ c4Env.stats.length < 2 ^ 32 ∧
    connStep c4Env c4Conn = .emit c4Conn2 [0, 0, 0, 3, 9, 9, 9] false ∧
    (∃ body, ([0, 0, 0, 3, 9, 9, 9] : List Nat) = be32 body.length ++ body ∧
      body.length < 2 ^ 32) := by
  have hwf : WellFramed c4Env := by
    intro t i k fr h
    refine ⟨[9, 9, 9], ?_, by norm_num⟩
    rw [← Option.some_inj.mp h]
    decide
  refine ⟨hwf, by decide, by decide, by decide, ?_⟩
  exact connStep_emits_wire_format c4Env c4Conn c4Conn2 _ false hwf
    (by decide) (by decide) (by decide)

/-! ### Step-level characterisations of the request loop -/

theorem mkRequest_length (action t i : Nat) (key : List Nat) :
    (mkRequest action t i key).length = 8 + key.length := by
  simp [mkRequest, be32]
  omega

/-- `dispatch` reads only `discarding`, `action`, `tableId`, `indexId`
from the connection. -/
theorem dispatch_fields (env : Env) (c : Conn) (key : List Nat)
    (hd : c.discarding = false) :
    dispatch env c key = dispatchR env c.action c.tableId c.indexId key := by
  unfold dispatchR dispatch
  rw [hd]

/-- An unknown action byte (none of 'F', 'D', 's', 'q') dispatches the
four-byte zero-length response and does not request shutdown. -/
theorem dispatchR_unknown (env : Env) (action t i : Nat) (key : List Nat)
    (h70 : action ≠ 70) (h68 : action ≠ 68) (h115 : action ≠ 115)
    (h113 : action ≠ 113) :
    dispatchR env action t i key = (be32 0, false) := by
  unfold dispatchR dispatch
  simp [h70, h68, h115, h113]

/-- Step lemma C: fewer than 8 bytes available and no parsed header. -/
theorem connStep_needmore (env : Env) (c : Conn) (hh : c.hdrHave = 0)
    (hav : c.rbuf.length - c.rbufPos < 8) :
    connStep env c = .needMore c := by
  unfold connStep
  rw [if_pos (by omega), if_pos hav]

/-- Step lemma A: a complete valid-size request at the parse cursor is
dispatched in one iteration. -/
theorem connStep_request (env : Env) (c : Conn) (action t i : Nat)
    (key rest : List Nat)
    (hh : c.hdrHave = 0)
    (hbuf : c.rbuf.drop c.rbufPos = mkRequest action t i key ++ rest)
    (hklen : key.length ≤ MELIAN_MAX_KEY_LEN) :
    connStep env c = .emit
      { c with action := action, tableId := t, indexId := i,
               keyLen := key.length,
               rbufPos := c.rbufPos + 8 + key.length,
               hdrHave := 0, keyHave := 0, discarding := false }
      (respOf env action t i key) (dispatchR env action t i key).2 := by
  have hdl : (c.rbuf.drop c.rbufPos).length = c.rbuf.length - c.rbufPos :=
    List.length_drop _ _
  have hlen : c.rbuf.length - c.rbufPos = 8 + key.length + rest.length := by
    rw [← hdl, hbuf, List.length_append, mkRequest_length]
  have hsz : key.length < 2 ^ 32 := by
    have : (MELIAN_MAX_KEY_LEN : Nat) = 256 := rfl
    omega
  have hthb : (c.rbuf.drop c.rbufPos).take 8
      = [MELIAN_HEADER_VERSION, action, t, i] ++ be32 key.length := by
    rw [hbuf]
    rw [show mkRequest action t i key ++ rest
        = ([MELIAN_HEADER_VERSION, action, t, i] ++ be32 key.length) ++ (key ++ rest) by
      simp [mkRequest]]
    exact List.take_left' (by simp [be32])
  have hdrop4 : (((c.rbuf.drop c.rbufPos).take 8).drop 4) = be32 key.length := by
    rw [hthb]
    simp [be32]
  have hbe : readBE32 (((c.rbuf.drop c.rbufPos).take 8).drop 4) = key.length := by
    rw [hdrop4]
    exact readBE32_be32 _ hsz
  have hget0 : ((c.rbuf.drop c.rbufPos).take 8).getD 0 0 = MELIAN_HEADER_VERSION := by
    rw [hthb]; rfl
  have hget1 : ((c.rbuf.drop c.rbufPos).take 8).getD 1 0 = action := by
    rw [hthb]; rfl
  have hget2 : ((c.rbuf.drop c.rbufPos).take 8).getD 2 0 = t := by
    rw [hthb]; rfl
  have hget3 : ((c.rbuf.drop c.rbufPos).take 8).getD 3 0 = i := by
    rw [hthb]; rfl
  have hkeyeq : (c.rbuf.drop (c.rbufPos + 8)).take key.length = key := by
    rw [← List.drop_drop, hbuf]
    rw [show mkRequest action t i key ++ rest
        = ([MELIAN_HEADER_VERSION, action, t, i] ++ be32 key.length) ++ (key ++ rest) by
      simp [mkRequest]]
    rw [List.drop_left' (by simp [be32]), List.take_left' rfl]
  have hdec : decide (MELIAN_MAX_KEY_LEN < key.length) = false :=
    decide_eq_false (by omega)
  unfold connStep
  rw [if_pos (by omega), if_neg (by omega), if_neg (by rw [hget0]; simp)]
  rw [hget1, hget2, hget3, hbe, hdec]
  unfold connStep2
  dsimp only
  rw [if_neg (by omega : ¬ (c.rbuf.length - (c.rbufPos + 8) < key.length))]
  unfold dispatchEmit
  dsimp only
  rw [hkeyeq, dispatch_fields env _ _ rfl]
  rfl

/-- Step lemma B: a valid-size header with an incomplete key parses the
header and waits for more bytes. -/
theorem connStep_header_only (env : Env) (c : Conn) (action t i klen : Nat)
    (key_part : List Nat)
    (hh : c.hdrHave = 0)
    (hbuf : c.rbuf.drop c.rbufPos
      = [MELIAN_HEADER_VERSION, action, t, i] ++ be32 klen ++ key_part)
    (hpart : key_part.length < klen) (hklen : klen ≤ MELIAN_MAX_KEY_LEN) :
    connStep env c = .needMore
      { c with action := action, tableId := t, indexId := i, keyLen := klen,
               rbufPos := c.rbufPos + 8, hdrHave := 8, discarding := false,
               keyHave := 0 } := by
  have hdl : (c.rbuf.drop c.rbufPos).length = c.rbuf.length - c.rbufPos :=
    List.length_drop _ _
  have hlen : c.rbuf.length - c.rbufPos = 8 + key_part.length := by
    rw [← hdl, hbuf]
    simp [be32]
    omega
  have hsz : klen < 2 ^ 32 := by
    have h256 : (MELIAN_MAX_KEY_LEN : Nat) = 256 := rfl
    omega
  have hthb : (c.rbuf.drop c.rbufPos).take 8
      = [MELIAN_HEADER_VERSION, action, t, i] ++ be32 klen := by
    rw [hbuf]
    exact List.take_left' (by simp [be32])
  have hbe : readBE32 (((c.rbuf.drop c.rbufPos).take 8).drop 4) = klen := by
    rw [hthb]
    rw [show ([MELIAN_HEADER_VERSION, action, t, i] ++ be32 klen).drop 4 = be32 klen by
      simp [be32]]
    exact readBE32_be32 _ hsz
  have hdec : decide (MELIAN_MAX_KEY_LEN < klen) = false :=
    decide_eq_false (by omega)
  unfold connStep
  rw [if_pos (by omega), if_neg (by omega), if_neg (by rw [hthb]; simp)]
  rw [show ((c.rbuf.drop c.rbufPos).take 8).getD 1 0 = action by rw [hthb]; rfl]
  rw [show ((c.rbuf.drop c.rbufPos).take 8).getD 2 0 = t by rw [hthb]; rfl]
  rw [show ((c.rbuf.drop c.rbufPos).take 8).getD 3 0 = i by rw [hthb]; rfl]
  rw [hbe, hdec]
  unfold connStep2
  dsimp only
  rw [if_neg (show ¬ (false = true) by simp)]
  rw [if_pos (by omega : c.rbuf.length - (c.rbufPos + 8) < klen)]

/-- Step lemma D: header already parsed, not discarding, complete key in
the buffer — dispatch. -/
theorem connStep_key_ready (env : Env) (c : Conn) (key rest : List Nat)
    (hh : c.hdrHave = 8) (hd : c.discarding = false)
    (hbuf : c.rbuf.drop c.rbufPos = key ++ rest) (hkl : c.keyLen = key.length) :
    connStep env c = .emit
      { c with rbufPos := c.rbufPos + key.length, hdrHave := 0, keyHave := 0,
               discarding := false }
      (respOf env c.action c.tableId c.indexId key)
      (dispatchR env c.action c.tableId c.indexId key).2 := by
  have hdl : (c.rbuf.drop c.rbufPos).length = c.rbuf.length - c.rbufPos :=
    List.length_drop _ _
  have hlen : c.rbuf.length - c.rbufPos = key.length + rest.length := by
    rw [← hdl, hbuf, List.length_append]
  have hkeyeq : (c.rbuf.drop c.rbufPos).take c.keyLen = key := by
    rw [hbuf, hkl]
    exact List.take_left' rfl
  unfold connStep
  rw [if_neg (by omega)]
  unfold connStep2
  rw [if_neg (by simp [hd]), if_neg (by omega : ¬ c.rbuf.length - c.rbufPos < c.keyLen)]
  unfold dispatchEmit
  rw [hkeyeq, dispatch_fields env c key hd, hd, hkl]
  rfl

/-- Step lemma E: header already parsed, not discarding, key incomplete. -/
theorem connStep_key_wait (env : Env) (c : Conn)
    (hh : c.hdrHave = 8) (hd : c.discarding = false)
    (hav : c.rbuf.length - c.rbufPos < c.keyLen) :
    connStep env c = .needMore c := by
  unfold connStep
  rw [if_neg (by omega)]
  unfold connStep2
  rw [if_neg (by simp [hd]), if_pos hav]

/-- Step lemma G1: mid-discard, not enough bytes yet — consume them all. -/
theorem connStep_discard_more (env : Env) (c : Conn)
    (hh : c.hdrHave = 8) (hd : c.discarding = true)
    (hlt : c.keyHave + (c.rbuf.length - c.rbufPos) < c.keyLen) :
    connStep env c = .needMore
      { c with rbufPos := c.rbufPos + (c.rbuf.length - c.rbufPos),
               keyHave := c.keyHave + (c.rbuf.length - c.rbufPos) } := by
  have hmin : min (c.keyLen - c.keyHave) (c.rbuf.length - c.rbufPos)
      = c.rbuf.length - c.rbufPos := Nat.min_eq_right (by omega)
  unfold connStep
  rw [if_neg (by omega)]
  unfold connStep2
  rw [if_pos hd, hmin, if_pos (by omega)]

/-- Step lemma G2: mid-discard with the remaining key bytes available —
consume exactly `keyLen - keyHave` bytes and emit the zero response. -/
theorem connStep_discard_done (env : Env) (c : Conn)
    (hh : c.hdrHave = 8) (hd : c.discarding = true)
    (hkh : c.keyHave ≤ c.keyLen)
    (hge : c.keyLen ≤ c.keyHave + (c.rbuf.length - c.rbufPos)) :
    connStep env c = .emit
      { c with rbufPos := c.rbufPos + (c.keyLen - c.keyHave),
               hdrHave := 0, keyHave := 0, discarding := false }
      (be32 0) false := by
  have hmin : min (c.keyLen - c.keyHave) (c.rbuf.length - c.rbufPos)
      = c.keyLen - c.keyHave := Nat.min_eq_left (by omega)
  unfold connStep
  rw [if_neg (by omega)]
  unfold connStep2
  rw [if_pos hd, hmin, if_neg (by omega)]
  unfold dispatchEmit dispatch
  dsimp only
  rw [hd]
  rfl

/-- Step lemma F1: an oversized-key header with fewer than `klen` key
bytes available — parse, enter discard mode, consume what is there. -/
theorem connStep_oversized_more (env : Env) (c : Conn) (action t i klen : Nat)
    (part : List Nat)
    (hh : c.hdrHave = 0)
    (hbuf : c.rbuf.drop c.rbufPos
      = [MELIAN_HEADER_VERSION, action, t, i] ++ be32 klen ++ part)
    (hbig : MELIAN_MAX_KEY_LEN < klen) (hsz : klen < 2 ^ 32)
    (hpart : part.length < klen) :
    connStep env c = .needMore
      { c with action := action, tableId := t, indexId := i, keyLen := klen,
               rbufPos := c.rbufPos + 8 + part.length, hdrHave := 8,
               discarding := true, keyHave := part.length } := by
  have hdl : (c.rbuf.drop c.rbufPos).length = c.rbuf.length - c.rbufPos :=
    List.length_drop _ _
  have hlen : c.rbuf.length - c.rbufPos = 8 + part.length := by
    rw [← hdl, hbuf]
    simp [be32]
    omega
  have hthb : (c.rbuf.drop c.rbufPos).take 8
      = [MELIAN_HEADER_VERSION, action, t, i] ++ be32 klen := by
    rw [hbuf]
    exact List.take_left' (by simp [be32])
  have hbe : readBE32 (((c.rbuf.drop c.rbufPos).take 8).drop 4) = klen := by
    rw [hthb]
    rw [show ([MELIAN_HEADER_VERSION, action, t, i] ++ be32 klen).drop 4 = be32 klen by
      simp [be32]]
    exact readBE32_be32 _ hsz
  have hdec : decide (MELIAN_MAX_KEY_LEN < klen) = true := decide_eq_true hbig
  have havail : c.rbuf.length - (c.rbufPos + 8) = part.length := by omega
  have hmin : min (klen - 0) part.length = part.length := Nat.min_eq_right (by omega)
  unfold connStep
  rw [if_pos (by omega), if_neg (by omega), if_neg (by rw [hthb]; simp)]
  rw [show ((c.rbuf.drop c.rbufPos).take 8).getD 1 0 = action by rw [hthb]; rfl]
  rw [show ((c.rbuf.drop c.rbufPos).take 8).getD 2 0 = t by rw [hthb]; rfl]
  rw [show ((c.rbuf.drop c.rbufPos).take 8).getD 3 0 = i by rw [hthb]; rfl]
  rw [hbe, hdec]
  unfold connStep2
  dsimp only
  rw [if_pos (show (true = true) from rfl)]
  rw [havail, hmin, if_pos (by omega)]
  rw [show (0 : Nat) + part.length = part.length from Nat.zero_add _]

/-- Step lemma F2: an oversized-key header with the whole key available —
parse, discard it entirely, emit the zero response. -/
theorem connStep_oversized_done (env : Env) (c : Conn) (action t i klen : Nat)
    (part : List Nat)
    (hh : c.hdrHave = 0)
    (hbuf : c.rbuf.drop c.rbufPos
      = [MELIAN_HEADER_VERSION, action, t, i] ++ be32 klen ++ part)
    (hbig : MELIAN_MAX_KEY_LEN < klen) (hsz : klen < 2 ^ 32)
    (hpart : klen ≤ part.length) :
    connStep env c = .emit
      { c with action := action, tableId := t, indexId := i, keyLen := klen,
               rbufPos := c.rbufPos + 8 + klen, hdrHave := 0,
               discarding := false, keyHave := 0 }
      (be32 0) false := by
  have hdl : (c.rbuf.drop c.rbufPos).length = c.rbuf.length - c.rbufPos :=
    List.length_drop _ _
  have hlen : c.rbuf.length - c.rbufPos = 8 + part.length := by
    rw [← hdl, hbuf]
    simp [be32]
    omega
  have hthb : (c.rbuf.drop c.rbufPos).take 8
      = [MELIAN_HEADER_VERSION, action, t, i] ++ be32 klen := by
    rw [hbuf]
    exact List.take_left' (by simp [be32])
  have hbe : readBE32 (((c.rbuf.drop c.rbufPos).take 8).drop 4) = klen := by
    rw [hthb]
    rw [show ([MELIAN_HEADER_VERSION, action, t, i] ++ be32 klen).drop 4 = be32 klen by
      simp [be32]]
    exact readBE32_be32 _ hsz
  have hdec : decide (MELIAN_MAX_KEY_LEN < klen) = true := decide_eq_true hbig
  have havail : c.rbuf.length - (c.rbufPos + 8) = part.length := by omega
  have hmin : min (klen - 0) part.length = klen := Nat.min_eq_left (by omega)
  unfold connStep
  rw [if_pos (by omega), if_neg (by omega), if_neg (by rw [hthb]; simp)]
  rw [show ((c.rbuf.drop c.rbufPos).take 8).getD 1 0 = action by rw [hthb]; rfl]
  rw [show ((c.rbuf.drop c.rbufPos).take 8).getD 2 0 = t by rw [hthb]; rfl]
  rw [show ((c.rbuf.drop c.rbufPos).take 8).getD 3 0 = i by rw [hthb]; rfl]
  rw [hbe, hdec]
  unfold connStep2
  dsimp only
  rw [if_pos (show (true = true) from rfl)]
  rw [havail, hmin, if_neg (by omega)]
  rfl

/-! ### Loop, call and run plumbing -/

theorem connLoop_needMore (env : Env) (fuel : Nat) (c c2 : Conn)
    (h : connStep env c = .needMore c2) (hf : 1 ≤ fuel) :
    connLoop env fuel c = (c2, [], false, false) := by
  obtain ⟨f, rfl⟩ : ∃ f, fuel = f + 1 := ⟨fuel - 1, by omega⟩
  simp [connLoop, h]

theorem connLoop_emit (env : Env) (fuel : Nat) (c c2 : Conn) (r : List Nat)
    (q : Bool) (h : connStep env c = .emit c2 r q) (hf : 1 ≤ fuel) :
    connLoop env fuel c
      = ((connLoop env (fuel - 1) c2).1,
         r :: (connLoop env (fuel - 1) c2).2.1,
         (connLoop env (fuel - 1) c2).2.2.1,
         q || (connLoop env (fuel - 1) c2).2.2.2) := by
  obtain ⟨f, rfl⟩ : ∃ f, fuel = f + 1 := ⟨fuel - 1, by omega⟩
  simp [connLoop, h]

theorem onReadCall_eq (env : Env) (c : Conn) (stream : List Nat) (chunk : Nat)
    (hchunk : min (MELIAN_RBUF_SIZE - c.rbuf.length) stream.length = chunk) :
    onReadCall env c stream
      = (compact (connLoop env ((c.rbuf ++ stream.take chunk).length + 1)
            { c with rbuf := c.rbuf ++ stream.take chunk }).1,
         (connLoop env ((c.rbuf ++ stream.take chunk).length + 1)
            { c with rbuf := c.rbuf ++ stream.take chunk }).2.1,
         (connLoop env ((c.rbuf ++ stream.take chunk).length + 1)
            { c with rbuf := c.rbuf ++ stream.take chunk }).2.2.1,
         (connLoop env ((c.rbuf ++ stream.take chunk).length + 1)
            { c with rbuf := c.rbuf ++ stream.take chunk }).2.2.2,
         stream.drop chunk) := by
  simp only [onReadCall, hchunk]

theorem connRun_nil (env : Env) (fuel : Nat) (c : Conn) :
    connRun env fuel c [] = (c, [], false) := by
  cases fuel <;> simp [connRun]

theorem connRun_step (env : Env) (fuel : Nat) (c : Conn) (stream : List Nat)
    (c' : Conn) (rs : List (List Nat)) (q : Bool) (rest : List Nat)
    (hne : stream ≠ [])
    (hcall : onReadCall env c stream = (c', rs, false, q, rest)) (hf : 1 ≤ fuel) :
    connRun env fuel c stream
      = ((connRun env (fuel - 1) c' rest).1,
         rs ++ (connRun env (fuel - 1) c' rest).2.1,
         (connRun env (fuel - 1) c' rest).2.2) := by
  obtain ⟨f, rfl⟩ : ∃ f, fuel = f + 1 := ⟨fuel - 1, by omega⟩
  simp [connRun, hne, hcall]

/-- A read boundary fell inside a request header: fewer than 8 bytes of
the next request are buffered (parse state clean, stale fields
arbitrary).  The next read completes the request and yields exactly its
response. -/
theorem connRun_clean_tail (env : Env) (a2 t2 i2 : Nat) (key2 : List Nat)
    (b act tb ix kl kh : Nat) (ds : Bool) (fuel : Nat)
    (hb : b < 8) (hk2 : key2.length ≤ MELIAN_MAX_KEY_LEN) (hf : 1 ≤ fuel) :
    (connRun env fuel
        (⟨(mkRequest a2 t2 i2 key2).take b, 0, 0, act, tb, ix, kl, kh, ds⟩ : Conn)
        ((mkRequest a2 t2 i2 key2).drop b)).2.1
      = [respOf env a2 t2 i2 key2] ∧
    (connRun env fuel
        (⟨(mkRequest a2 t2 i2 key2).take b, 0, 0, act, tb, ix, kl, kh, ds⟩ : Conn)
        ((mkRequest a2 t2 i2 key2).drop b)).2.2 = false := by
  have hmax : (MELIAN_MAX_KEY_LEN : Nat) = 256 := rfl
  have hk2' : key2.length ≤ 256 := hmax ▸ hk2
  have hL2 : (mkRequest a2 t2 i2 key2).length = 8 + key2.length :=
    mkRequest_length a2 t2 i2 key2
  have hbl : ((mkRequest a2 t2 i2 key2).take b).length = b := by
    rw [List.length_take]
    omega
  have hdl : ((mkRequest a2 t2 i2 key2).drop b).length = 8 + key2.length - b := by
    rw [List.length_drop, hL2]
  have hchunk : min
      (MELIAN_RBUF_SIZE
        - (⟨(mkRequest a2 t2 i2 key2).take b, 0, 0, act, tb, ix, kl, kh,
            ds⟩ : Conn).rbuf.length)
      ((mkRequest a2 t2 i2 key2).drop b).length
      = ((mkRequest a2 t2 i2 key2).drop b).length := by
    have hrbs : (MELIAN_RBUF_SIZE : Nat) = 4096 := rfl
    show min (MELIAN_RBUF_SIZE - ((mkRequest a2 t2 i2 key2).take b).length)
      ((mkRequest a2 t2 i2 key2).drop b).length
      = ((mkRequest a2 t2 i2 key2).drop b).length
    rw [hrbs, hbl, hdl]
    omega
  have hcall := onReadCall_eq env
    (⟨(mkRequest a2 t2 i2 key2).take b, 0, 0, act, tb, ix, kl, kh, ds⟩ : Conn)
    ((mkRequest a2 t2 i2 key2).drop b)
    ((mkRequest a2 t2 i2 key2).drop b).length hchunk
  rw [List.take_length, List.drop_length] at hcall
  have hCA : ({ (⟨(mkRequest a2 t2 i2 key2).take b, 0, 0, act, tb, ix, kl, kh,
        ds⟩ : Conn) with
        rbuf := (⟨(mkRequest a2 t2 i2 key2).take b, 0, 0, act, tb, ix, kl, kh,
          ds⟩ : Conn).rbuf ++ (mkRequest a2 t2 i2 key2).drop b } : Conn)
      = ⟨mkRequest a2 t2 i2 key2, 0, 0, act, tb, ix, kl, kh, ds⟩ := by
    simp
  have hflen : ((⟨(mkRequest a2 t2 i2 key2).take b, 0, 0, act, tb, ix, kl, kh,
        ds⟩ : Conn).rbuf ++ (mkRequest a2 t2 i2 key2).drop b).length
      = 8 + key2.length := by
    show ((mkRequest a2 t2 i2 key2).take b
        ++ (mkRequest a2 t2 i2 key2).drop b).length = 8 + key2.length
    rw [List.take_append_drop, hL2]
  rw [hCA, hflen] at hcall
  have hbufA : (⟨mkRequest a2 t2 i2 key2, 0, 0, act, tb, ix, kl, kh,
        ds⟩ : Conn).rbuf.drop
        (⟨mkRequest a2 t2 i2 key2, 0, 0, act, tb, ix, kl, kh, ds⟩ : Conn).rbufPos
      = mkRequest a2 t2 i2 key2 ++ [] := by
    simp
  have hstep1 := connStep_request env
    (⟨mkRequest a2 t2 i2 key2, 0, 0, act, tb, ix, kl, kh, ds⟩ : Conn)
    a2 t2 i2 key2 [] rfl hbufA hk2
  have hrecB : ({ (⟨mkRequest a2 t2 i2 key2, 0, 0, act, tb, ix, kl, kh,
        ds⟩ : Conn) with
        action := a2, tableId := t2, indexId := i2, keyLen := key2.length,
        rbufPos := (⟨mkRequest a2 t2 i2 key2, 0, 0, act, tb, ix, kl, kh,
          ds⟩ : Conn).rbufPos + 8 + key2.length,
        hdrHave := 0, keyHave := 0, discarding := false } : Conn)
      = ⟨mkRequest a2 t2 i2 key2, 8 + key2.length, 0, a2, t2, i2,
         key2.length, 0, false⟩ := by
    simp
  rw [hrecB] at hstep1
  have hstep2 : connStep env
      (⟨mkRequest a2 t2 i2 key2, 8 + key2.length, 0, a2, t2, i2,
        key2.length, 0, false⟩ : Conn)
      = .needMore (⟨mkRequest a2 t2 i2 key2, 8 + key2.length, 0, a2, t2, i2,
        key2.length, 0, false⟩ : Conn) := by
    refine connStep_needmore env _ rfl ?_
    show (mkRequest a2 t2 i2 key2).length - (8 + key2.length) < 8
    rw [hL2]
    omega
  have hloop1 := connLoop_emit env (8 + key2.length + 1) _ _ _ _ hstep1
    (by omega)
  have hloop2 := connLoop_needMore env (8 + key2.length + 1 - 1) _ _ hstep2
    (by omega)
  rw [hloop2] at hloop1
  rw [hloop1] at hcall
  have hrun := connRun_step env fuel
    (⟨(mkRequest a2 t2 i2 key2).take b, 0, 0, act, tb, ix, kl, kh, ds⟩ : Conn)
    ((mkRequest a2 t2 i2 key2).drop b) _ _ _ _
    (by
      intro h
      have := congrArg List.length h
      rw [hdl] at this
      simp at this
      omega)
    (by rw [hcall]) hf
  rw [connRun_nil] at hrun
  rw [hrun]
  simp

/-- A read boundary fell inside a request's key: the 8-byte header is
parsed and the first `b2` key bytes are buffered.  The next read
completes the key and yields exactly the request's response. -/
theorem connRun_midkey (env : Env) (a2 t2 i2 : Nat) (key2 : List Nat)
    (b2 : Nat) (fuel : Nat)
    (hb2 : b2 < key2.length) (hk2 : key2.length ≤ MELIAN_MAX_KEY_LEN)
    (hf : 1 ≤ fuel) :
    (connRun env fuel
        (⟨key2.take b2, 0, 8, a2, t2, i2, key2.length, 0, false⟩ : Conn)
        (key2.drop b2)).2.1 = [respOf env a2 t2 i2 key2] ∧
    (connRun env fuel
        (⟨key2.take b2, 0, 8, a2, t2, i2, key2.length, 0, false⟩ : Conn)
        (key2.drop b2)).2.2 = false := by
  have hmax : (MELIAN_MAX_KEY_LEN : Nat) = 256 := rfl
  have hk2' : key2.length ≤ 256 := hmax ▸ hk2
  have hbl : (key2.take b2).length = b2 := by
    rw [List.length_take]
    omega
  have hdl : (key2.drop b2).length = key2.length - b2 := List.length_drop _ _
  have hchunk : min
      (MELIAN_RBUF_SIZE
        - (⟨key2.take b2, 0, 8, a2, t2, i2, key2.length, 0,
            false⟩ : Conn).rbuf.length)
      (key2.drop b2).length = (key2.drop b2).length := by
    have hrbs : (MELIAN_RBUF_SIZE : Nat) = 4096 := rfl
    show min (MELIAN_RBUF_SIZE - (key2.take b2).length) (key2.drop b2).length
      = (key2.drop b2).length
    rw [hrbs, hbl, hdl]
    omega
  have hcall := onReadCall_eq env
    (⟨key2.take b2, 0, 8, a2, t2, i2, key2.length, 0, false⟩ : Conn)
    (key2.drop b2) (key2.drop b2).length hchunk
  rw [List.take_length, List.drop_length] at hcall
  have hCA : ({ (⟨key2.take b2, 0, 8, a2, t2, i2, key2.length, 0,
        false⟩ : Conn) with
        rbuf := (⟨key2.take b2, 0, 8, a2, t2, i2, key2.length, 0,
          false⟩ : Conn).rbuf ++ key2.drop b2 } : Conn)
      = ⟨key2, 0, 8, a2, t2, i2, key2.length, 0, false⟩ := by
    simp
  have hflen : ((⟨key2.take b2, 0, 8, a2, t2, i2, key2.length, 0,
        false⟩ : Conn).rbuf ++ key2.drop b2).length = key2.length := by
    show (key2.take b2 ++ key2.drop b2).length = key2.length
    rw [List.take_append_drop]
  rw [hCA, hflen] at hcall
  have hbufA : (⟨key2, 0, 8, a2, t2, i2, key2.length, 0,
        false⟩ : Conn).rbuf.drop
        (⟨key2, 0, 8, a2, t2, i2, key2.length, 0, false⟩ : Conn).rbufPos
      = key2 ++ [] := by
    simp
  have hstep1 := connStep_key_ready env
    (⟨key2, 0, 8, a2, t2, i2, key2.length, 0, false⟩ : Conn)
    key2 [] rfl rfl hbufA rfl
  have hrecB : ({ (⟨key2, 0, 8, a2, t2, i2, key2.length, 0,
        false⟩ : Conn) with
        rbufPos := (⟨key2, 0, 8, a2, t2, i2, key2.length, 0,
          false⟩ : Conn).rbufPos + key2.length,
        hdrHave := 0, keyHave := 0, discarding := false } : Conn)
      = ⟨key2, key2.length, 0, a2, t2, i2, key2.length, 0, false⟩ := by
    simp
  rw [hrecB] at hstep1
  have hstep2 : connStep env
      (⟨key2, key2.length, 0, a2, t2, i2, key2.length, 0, false⟩ : Conn)
      = .needMore (⟨key2, key2.length, 0, a2, t2, i2, key2.length, 0,
        false⟩ : Conn) := by
    refine connStep_needmore env _ rfl ?_
    show key2.length - key2.length < 8
    omega
  have hloop1 := connLoop_emit env (key2.length + 1) _ _ _ _ hstep1 (by omega)
  have hloop2 := connLoop_needMore env (key2.length + 1 - 1) _ _ hstep2
    (by omega)
  rw [hloop2] at hloop1
  rw [hloop1] at hcall
  have hrun := connRun_step env fuel
    (⟨key2.take b2, 0, 8, a2, t2, i2, key2.length, 0, false⟩ : Conn)
    (key2.drop b2) _ _ _ _
    (by
      intro h
      have := congrArg List.length h
      rw [hdl] at this
      simp at this
      omega)
    (by rw [hcall]) hf
  rw [connRun_nil] at hrun
  rw [hrun]
  simp

/-- Mid-discard driver: with `tail.length` oversized-key bytes still to
discard (buffer empty, header consumed, `discarding` set) and a complete
follow-up request behind them on the stream, the runs of `on_read` emit
exactly the zero response for the oversized request followed by the
follow-up's response, and do not close the connection. -/
theorem connRun_discard (env : Env) (a2 t2 i2 : Nat) (key2 : List Nat)
    (act tb ix klen : Nat) (tail : List Nat) (fuel : Nat)
    (hk2 : key2.length ≤ MELIAN_MAX_KEY_LEN)
    (hr1 : 1 ≤ tail.length) (hrk : tail.length ≤ klen)
    (hfuel : tail.length + 2 ≤ fuel) :
    (connRun env fuel
        (⟨[], 0, 8, act, tb, ix, klen, klen - tail.length, true⟩ : Conn)
        (tail ++ mkRequest a2 t2 i2 key2)).2.1
      = [be32 0, respOf env a2 t2 i2 key2] ∧
    (connRun env fuel
        (⟨[], 0, 8, act, tb, ix, klen, klen - tail.length, true⟩ : Conn)
        (tail ++ mkRequest a2 t2 i2 key2)).2.2 = false := by
  have hmax : (MELIAN_MAX_KEY_LEN : Nat) = 256 := rfl
  have hk2' : key2.length ≤ 256 := hmax ▸ hk2
  have hL2 : (mkRequest a2 t2 i2 key2).length = 8 + key2.length :=
    mkRequest_length a2 t2 i2 key2
  revert hr1 hrk hfuel
  induction fuel generalizing tail with
  | zero =>
    intro hr1 hrk hfuel
    omega
  | succ f IH =>
    intro hr1 hrk hfuel
    have hSlen : (tail ++ mkRequest a2 t2 i2 key2).length
        = tail.length + (8 + key2.length) := by
      rw [List.length_append, hL2]
    have hne : tail ++ mkRequest a2 t2 i2 key2 ≠ [] := by
      intro h
      have := congrArg List.length h
      rw [hSlen] at this
      simp at this
    by_cases hone : tail.length + 8 + key2.length ≤ 4096
    · -- This read consumes the rest of the key and the whole next request.
      have hchunk : min
          (MELIAN_RBUF_SIZE - (⟨[], 0, 8, act, tb, ix, klen,
            klen - tail.length, true⟩ : Conn).rbuf.length)
          (tail ++ mkRequest a2 t2 i2 key2).length
          = (tail ++ mkRequest a2 t2 i2 key2).length := by
        show min (4096 - 0) (tail ++ mkRequest a2 t2 i2 key2).length
          = (tail ++ mkRequest a2 t2 i2 key2).length
        rw [hSlen]
        omega
      have hcall := onReadCall_eq env
        (⟨[], 0, 8, act, tb, ix, klen, klen - tail.length, true⟩ : Conn)
        (tail ++ mkRequest a2 t2 i2 key2)
        (tail ++ mkRequest a2 t2 i2 key2).length hchunk
      rw [List.take_length, List.drop_length] at hcall
      have hCA : ({ (⟨[], 0, 8, act, tb, ix, klen, klen - tail.length,
            true⟩ : Conn) with
            rbuf := (⟨[], 0, 8, act, tb, ix, klen, klen - tail.length,
              true⟩ : Conn).rbuf ++ (tail ++ mkRequest a2 t2 i2 key2) } : Conn)
          = ⟨tail ++ mkRequest a2 t2 i2 key2, 0, 8, act, tb, ix, klen,
             klen - tail.length, true⟩ := by
        simp
      have hflen : ((⟨[], 0, 8, act, tb, ix, klen, klen - tail.length,
            true⟩ : Conn).rbuf ++ (tail ++ mkRequest a2 t2 i2 key2)).length
          = tail.length + (8 + key2.length) := by
        show (([] : List Nat) ++ (tail ++ mkRequest a2 t2 i2 key2)).length
          = tail.length + (8 + key2.length)
        rw [List.nil_append, hSlen]
      rw [hCA, hflen] at hcall
      have hstep1 := connStep_discard_done env
        (⟨tail ++ mkRequest a2 t2 i2 key2, 0, 8, act, tb, ix, klen,
          klen - tail.length, true⟩ : Conn) rfl rfl
        (by
          show klen - tail.length ≤ klen
          omega)
        (by
          show klen ≤ klen - tail.length
            + ((tail ++ mkRequest a2 t2 i2 key2).length - 0)
          rw [hSlen]
          omega)
      have hrecB : ({ (⟨tail ++ mkRequest a2 t2 i2 key2, 0, 8, act, tb, ix,
            klen, klen - tail.length, true⟩ : Conn) with
            rbufPos := (⟨tail ++ mkRequest a2 t2 i2 key2, 0, 8, act, tb, ix,
              klen, klen - tail.length, true⟩ : Conn).rbufPos
              + ((⟨tail ++ mkRequest a2 t2 i2 key2, 0, 8, act, tb, ix, klen,
                klen - tail.length, true⟩ : Conn).keyLen
                - (⟨tail ++ mkRequest a2 t2 i2 key2, 0, 8, act, tb, ix, klen,
                  klen - tail.length, true⟩ : Conn).keyHave),
            hdrHave := 0, keyHave := 0, discarding := false } : Conn)
          = ⟨tail ++ mkRequest a2 t2 i2 key2, tail.length, 0, act, tb, ix,
             klen, 0, false⟩ := by
        simp
        omega
      rw [hrecB] at hstep1
      have hbufB : (⟨tail ++ mkRequest a2 t2 i2 key2, tail.length, 0, act, tb,
            ix, klen, 0, false⟩ : Conn).rbuf.drop
            (⟨tail ++ mkRequest a2 t2 i2 key2, tail.length, 0, act, tb, ix,
              klen, 0, false⟩ : Conn).rbufPos
          = mkRequest a2 t2 i2 key2 ++ [] := by
        show (tail ++ mkRequest a2 t2 i2 key2).drop tail.length
          = mkRequest a2 t2 i2 key2 ++ []
        rw [List.append_nil]
        exact List.drop_left _ _
      have hstep2 := connStep_request env
        (⟨tail ++ mkRequest a2 t2 i2 key2, tail.length, 0, act, tb, ix, klen,
          0, false⟩ : Conn) a2 t2 i2 key2 [] rfl hbufB hk2
      have hrecC : ({ (⟨tail ++ mkRequest a2 t2 i2 key2, tail.length, 0, act,
            tb, ix, klen, 0, false⟩ : Conn) with
            action := a2, tableId := t2, indexId := i2, keyLen := key2.length,
            rbufPos := (⟨tail ++ mkRequest a2 t2 i2 key2, tail.length, 0, act,
              tb, ix, klen, 0, false⟩ : Conn).rbufPos + 8 + key2.length,
            hdrHave := 0, keyHave := 0, discarding := false } : Conn)
          = ⟨tail ++ mkRequest a2 t2 i2 key2, tail.length + 8 + key2.length,
             0, a2, t2, i2, key2.length, 0, false⟩ := by
        simp
      rw [hrecC] at hstep2
      have hstep3 : connStep env
          (⟨tail ++ mkRequest a2 t2 i2 key2, tail.length + 8 + key2.length, 0,
            a2, t2, i2, key2.length, 0, false⟩ : Conn)
          = .needMore (⟨tail ++ mkRequest a2 t2 i2 key2,
            tail.length + 8 + key2.length, 0, a2, t2, i2, key2.length, 0,
            false⟩ : Conn) := by
        refine connStep_needmore env _ rfl ?_
        show (tail ++ mkRequest a2 t2 i2 key2).length
          - (tail.length + 8 + key2.length) < 8
        rw [hSlen]
        omega
      have hloop1 := connLoop_emit env (tail.length + (8 + key2.length) + 1)
        _ _ _ _ hstep1 (by omega)
      have hloop2 := connLoop_emit env
        (tail.length + (8 + key2.length) + 1 - 1) _ _ _ _ hstep2 (by omega)
      have hloop3 := connLoop_needMore env
        (tail.length + (8 + key2.length) + 1 - 1 - 1) _ _ hstep3 (by omega)
      rw [hloop2, hloop3] at hloop1
      rw [hloop1] at hcall
      have hrun := connRun_step env (f + 1)
        (⟨[], 0, 8, act, tb, ix, klen, klen - tail.length, true⟩ : Conn)
        (tail ++ mkRequest a2 t2 i2 key2) _ _ _ _ hne (by rw [hcall])
        (by omega)
      rw [connRun_nil] at hrun
      rw [hrun]
      simp
    · by_cases htall : 4096 < tail.length
      · -- This whole read window is still key bytes: discard it and recurse.
        have hchunk : min
            (MELIAN_RBUF_SIZE - (⟨[], 0, 8, act, tb, ix, klen,
              klen - tail.length, true⟩ : Conn).rbuf.length)
            (tail ++ mkRequest a2 t2 i2 key2).length = 4096 := by
          show min (4096 - 0) (tail ++ mkRequest a2 t2 i2 key2).length = 4096
          rw [hSlen]
          omega
        have hcall := onReadCall_eq env
          (⟨[], 0, 8, act, tb, ix, klen, klen - tail.length, true⟩ : Conn)
          (tail ++ mkRequest a2 t2 i2 key2) 4096 hchunk
        have htake : (tail ++ mkRequest a2 t2 i2 key2).take 4096
            = tail.take 4096 := by
          rw [List.take_append_eq_append_take]
          have h0 : 4096 - tail.length = 0 := by omega
          rw [h0]
          simp
        have hrest : (tail ++ mkRequest a2 t2 i2 key2).drop 4096
            = tail.drop 4096 ++ mkRequest a2 t2 i2 key2 := by
          rw [List.drop_append_eq_append_drop]
          have h0 : 4096 - tail.length = 0 := by omega
          rw [h0, List.drop_zero]
        rw [htake, hrest] at hcall
        have htl4 : (tail.take 4096).length = 4096 := by
          rw [List.length_take]
          omega
        have hCA : ({ (⟨[], 0, 8, act, tb, ix, klen, klen - tail.length,
              true⟩ : Conn) with
              rbuf := (⟨[], 0, 8, act, tb, ix, klen, klen - tail.length,
                true⟩ : Conn).rbuf ++ tail.take 4096 } : Conn)
            = ⟨tail.take 4096, 0, 8, act, tb, ix, klen, klen - tail.length,
               true⟩ := by
          simp
        have hflen : ((⟨[], 0, 8, act, tb, ix, klen, klen - tail.length,
              true⟩ : Conn).rbuf ++ tail.take 4096).length = 4096 := by
          show (([] : List Nat) ++ tail.take 4096).length = 4096
          rw [List.nil_append, htl4]
        rw [hCA, hflen] at hcall
        have hstep1 := connStep_discard_more env
          (⟨tail.take 4096, 0, 8, act, tb, ix, klen, klen - tail.length,
            true⟩ : Conn) rfl rfl
          (by
            show klen - tail.length + ((tail.take 4096).length - 0) < klen
            rw [htl4]
            omega)
        have hrecB : ({ (⟨tail.take 4096, 0, 8, act, tb, ix, klen,
              klen - tail.length, true⟩ : Conn) with
              rbufPos := (⟨tail.take 4096, 0, 8, act, tb, ix, klen,
                klen - tail.length, true⟩ : Conn).rbufPos
                + ((⟨tail.take 4096, 0, 8, act, tb, ix, klen,
                  klen - tail.length, true⟩ : Conn).rbuf.length
                  - (⟨tail.take 4096, 0, 8, act, tb, ix, klen,
                    klen - tail.length, true⟩ : Conn).rbufPos),
              keyHave := (⟨tail.take 4096, 0, 8, act, tb, ix, klen,
                klen - tail.length, true⟩ : Conn).keyHave
                + ((⟨tail.take 4096, 0, 8, act, tb, ix, klen,
                  klen - tail.length, true⟩ : Conn).rbuf.length
                  - (⟨tail.take 4096, 0, 8, act, tb, ix, klen,
                    klen - tail.length, true⟩ : Conn).rbufPos) } : Conn)
            = ⟨tail.take 4096, 4096, 8, act, tb, ix, klen,
               klen - (tail.drop 4096).length, true⟩ := by
          simp [htl4, List.length_drop]
          omega
        rw [hrecB] at hstep1
        have hloop := connLoop_needMore env (4096 + 1) _ _ hstep1 (by omega)
        rw [hloop] at hcall
        dsimp only at hcall
        have hdtk : (tail.take 4096).drop 4096 = ([] : List Nat) :=
          List.drop_eq_nil_of_le (by rw [htl4])
        have hcompact : compact (⟨tail.take 4096, 4096, 8, act, tb, ix, klen,
              klen - (tail.drop 4096).length, true⟩ : Conn)
            = ⟨[], 0, 8, act, tb, ix, klen, klen - (tail.drop 4096).length,
               true⟩ := by
          unfold compact
          simp [hdtk]
        rw [hcompact] at hcall
        have hrun := connRun_step env (f + 1)
          (⟨[], 0, 8, act, tb, ix, klen, klen - tail.length, true⟩ : Conn)
          (tail ++ mkRequest a2 t2 i2 key2) _ _ _ _ hne (by rw [hcall])
          (by omega)
        simp only [Nat.add_sub_cancel] at hrun
        obtain ⟨ih1, ih2⟩ := IH (tail.drop 4096)
          (by rw [List.length_drop]; omega)
          (by rw [List.length_drop]; omega)
          (by rw [List.length_drop]; omega)
        rw [hrun, ih1, ih2]
        simp
      · -- The discard ends inside this read window.
        have hchunk : min
            (MELIAN_RBUF_SIZE - (⟨[], 0, 8, act, tb, ix, klen,
              klen - tail.length, true⟩ : Conn).rbuf.length)
            (tail ++ mkRequest a2 t2 i2 key2).length = 4096 := by
          show min (4096 - 0) (tail ++ mkRequest a2 t2 i2 key2).length = 4096
          rw [hSlen]
          omega
        have hcall := onReadCall_eq env
          (⟨[], 0, 8, act, tb, ix, klen, klen - tail.length, true⟩ : Conn)
          (tail ++ mkRequest a2 t2 i2 key2) 4096 hchunk
        have htake : (tail ++ mkRequest a2 t2 i2 key2).take 4096
            = tail ++ (mkRequest a2 t2 i2 key2).take (4096 - tail.length) := by
          rw [List.take_append_eq_append_take,
            List.take_of_length_le (by omega : tail.length ≤ 4096)]
        have hrest : (tail ++ mkRequest a2 t2 i2 key2).drop 4096
            = (mkRequest a2 t2 i2 key2).drop (4096 - tail.length) := by
          rw [List.drop_append_eq_append_drop,
            List.drop_eq_nil_of_le (by omega : tail.length ≤ 4096)]
          exact List.nil_append _
        rw [htake, hrest] at hcall
        have hR2t : ((mkRequest a2 t2 i2 key2).take
            (4096 - tail.length)).length = 4096 - tail.length := by
          rw [List.length_take, hL2]
          omega
        have hCA : ({ (⟨[], 0, 8, act, tb, ix, klen, klen - tail.length,
              true⟩ : Conn) with
              rbuf := (⟨[], 0, 8, act, tb, ix, klen, klen - tail.length,
                true⟩ : Conn).rbuf
                ++ (tail ++ (mkRequest a2 t2 i2 key2).take
                  (4096 - tail.length)) } : Conn)
            = ⟨tail ++ (mkRequest a2 t2 i2 key2).take (4096 - tail.length),
               0, 8, act, tb, ix, klen, klen - tail.length, true⟩ := by
          simp
        have hbuflen : ((⟨[], 0, 8, act, tb, ix, klen, klen - tail.length,
              true⟩ : Conn).rbuf
              ++ (tail ++ (mkRequest a2 t2 i2 key2).take
                (4096 - tail.length))).length = 4096 := by
          show (([] : List Nat) ++ (tail ++ (mkRequest a2 t2 i2 key2).take
            (4096 - tail.length))).length = 4096
          rw [List.nil_append, List.length_append, hR2t]
          omega
        rw [hCA, hbuflen] at hcall
        have hstep1 := connStep_discard_done env
          (⟨tail ++ (mkRequest a2 t2 i2 key2).take (4096 - tail.length), 0, 8,
            act, tb, ix, klen, klen - tail.length, true⟩ : Conn) rfl rfl
          (by
            show klen - tail.length ≤ klen
            omega)
          (by
            show klen ≤ klen - tail.length
              + ((tail ++ (mkRequest a2 t2 i2 key2).take
                (4096 - tail.length)).length - 0)
            rw [List.length_append, hR2t]
            omega)
        have hrecB : ({ (⟨tail ++ (mkRequest a2 t2 i2 key2).take
              (4096 - tail.length), 0, 8, act, tb, ix, klen,
              klen - tail.length, true⟩ : Conn) with
              rbufPos := (⟨tail ++ (mkRequest a2 t2 i2 key2).take
                (4096 - tail.length), 0, 8, act, tb, ix, klen,
                klen - tail.length, true⟩ : Conn).rbufPos
                + ((⟨tail ++ (mkRequest a2 t2 i2 key2).take
                  (4096 - tail.length), 0, 8, act, tb, ix, klen,
                  klen - tail.length, true⟩ : Conn).keyLen
                  - (⟨tail ++ (mkRequest a2 t2 i2 key2).take
                    (4096 - tail.length), 0, 8, act, tb, ix, klen,
                    klen - tail.length, true⟩ : Conn).keyHave),
              hdrHave := 0, keyHave := 0, discarding := false } : Conn)
            = ⟨tail ++ (mkRequest a2 t2 i2 key2).take (4096 - tail.length),
               tail.length, 0, act, tb, ix, klen, 0, false⟩ := by
          simp
          omega
        rw [hrecB] at hstep1
        have hdropbuf : (tail ++ (mkRequest a2 t2 i2 key2).take
              (4096 - tail.length)).drop tail.length
            = (mkRequest a2 t2 i2 key2).take (4096 - tail.length) :=
          List.drop_left _ _
        by_cases hb8 : 4096 - tail.length < 8
        · -- Fewer than 8 bytes of the next request made it into this window.
          have hstep2 : connStep env
              (⟨tail ++ (mkRequest a2 t2 i2 key2).take (4096 - tail.length),
                tail.length, 0, act, tb, ix, klen, 0, false⟩ : Conn)
              = .needMore (⟨tail ++ (mkRequest a2 t2 i2 key2).take
                (4096 - tail.length), tail.length, 0, act, tb, ix, klen, 0,
                false⟩ : Conn) := by
            refine connStep_needmore env _ rfl ?_
            show (tail ++ (mkRequest a2 t2 i2 key2).take
              (4096 - tail.length)).length - tail.length < 8
            rw [List.length_append, hR2t]
            omega
          have hloop1 := connLoop_emit env (4096 + 1) _ _ _ _ hstep1
            (by omega)
          have hloop2 := connLoop_needMore env (4096 + 1 - 1) _ _ hstep2
            (by omega)
          rw [hloop2] at hloop1
          rw [hloop1] at hcall
          dsimp only at hcall
          have hcompact : compact (⟨tail ++ (mkRequest a2 t2 i2 key2).take
                (4096 - tail.length), tail.length, 0, act, tb, ix, klen, 0,
                false⟩ : Conn)
              = ⟨(mkRequest a2 t2 i2 key2).take (4096 - tail.length), 0, 0,
                 act, tb, ix, klen, 0, false⟩ := by
            unfold compact
            simp [hdropbuf]
          rw [hcompact] at hcall
          have hrun := connRun_step env (f + 1)
            (⟨[], 0, 8, act, tb, ix, klen, klen - tail.length, true⟩ : Conn)
            (tail ++ mkRequest a2 t2 i2 key2) _ _ _ _ hne (by rw [hcall])
            (by omega)
          simp only [Nat.add_sub_cancel] at hrun
          obtain ⟨p1a, p1b⟩ := connRun_clean_tail env a2 t2 i2 key2
            (4096 - tail.length) act tb ix klen 0 false f hb8 hk2 (by omega)
          rw [hrun, p1a, p1b]
          simp
        · -- The next request's header is complete; its key is partial.
          have hhl : ([MELIAN_HEADER_VERSION, a2, t2, i2]
              ++ be32 key2.length).length = 8 := by
            simp [be32]
          have hsplit : (mkRequest a2 t2 i2 key2).take (4096 - tail.length)
              = [MELIAN_HEADER_VERSION, a2, t2, i2] ++ be32 key2.length
                ++ key2.take (4096 - tail.length - 8) := by
            show (([MELIAN_HEADER_VERSION, a2, t2, i2] ++ be32 key2.length)
              ++ key2).take (4096 - tail.length) = _
            rw [List.take_append_eq_append_take]
            have ht8 : ([MELIAN_HEADER_VERSION, a2, t2, i2]
                ++ be32 key2.length).take (4096 - tail.length)
                = [MELIAN_HEADER_VERSION, a2, t2, i2] ++ be32 key2.length :=
              List.take_of_length_le (by rw [hhl]; omega)
            rw [ht8, hhl]
          have hstep2 := connStep_header_only env
            (⟨tail ++ (mkRequest a2 t2 i2 key2).take (4096 - tail.length),
              tail.length, 0, act, tb, ix, klen, 0, false⟩ : Conn)
            a2 t2 i2 key2.length (key2.take (4096 - tail.length - 8)) rfl
            (by
              show (tail ++ (mkRequest a2 t2 i2 key2).take
                (4096 - tail.length)).drop tail.length
                = [MELIAN_HEADER_VERSION, a2, t2, i2] ++ be32 key2.length
                  ++ key2.take (4096 - tail.length - 8)
              rw [hdropbuf, hsplit])
            (by
              rw [List.length_take]
              omega)
            hk2
          have hrecC : ({ (⟨tail ++ (mkRequest a2 t2 i2 key2).take
                (4096 - tail.length), tail.length, 0, act, tb, ix, klen, 0,
                false⟩ : Conn) with
                action := a2, tableId := t2, indexId := i2,
                keyLen := key2.length,
                rbufPos := (⟨tail ++ (mkRequest a2 t2 i2 key2).take
                  (4096 - tail.length), tail.length, 0, act, tb, ix, klen, 0,
                  false⟩ : Conn).rbufPos + 8,
                hdrHave := 8, discarding := false, keyHave := 0 } : Conn)
              = ⟨tail ++ (mkRequest a2 t2 i2 key2).take (4096 - tail.length),
                 tail.length + 8, 8, a2, t2, i2, key2.length, 0, false⟩ := by
            simp
          rw [hrecC] at hstep2
          have hloop1 := connLoop_emit env (4096 + 1) _ _ _ _ hstep1
            (by omega)
          have hloop2 := connLoop_needMore env (4096 + 1 - 1) _ _ hstep2
            (by omega)
          rw [hloop2] at hloop1
          rw [hloop1] at hcall
          dsimp only at hcall
          have hdropR2 : (mkRequest a2 t2 i2 key2).drop 8 = key2 :=
            List.drop_left' hhl
          have hdrop8 : (tail ++ (mkRequest a2 t2 i2 key2).take
                (4096 - tail.length)).drop (tail.length + 8)
              = key2.take (4096 - tail.length - 8) := by
            have hnil : tail.drop (tail.length + 8) = ([] : List Nat) :=
              List.drop_eq_nil_of_le (by omega)
            have h8 : tail.length + 8 - tail.length = 8 := by omega
            rw [List.drop_append_eq_append_drop, hnil, h8, List.nil_append,
              List.drop_take, hdropR2]
          have hcompact : compact (⟨tail ++ (mkRequest a2 t2 i2 key2).take
                (4096 - tail.length), tail.length + 8, 8, a2, t2, i2,
                key2.length, 0, false⟩ : Conn)
              = ⟨key2.take (4096 - tail.length - 8), 0, 8, a2, t2, i2,
                 key2.length, 0, false⟩ := by
            unfold compact
            simp [hdrop8]
          rw [hcompact] at hcall
          have hrest2 : (mkRequest a2 t2 i2 key2).drop (4096 - tail.length)
              = key2.drop (4096 - tail.length - 8) := by
            have hnil2 : ([MELIAN_HEADER_VERSION, a2, t2, i2]
                ++ be32 key2.length).drop (4096 - tail.length)
                = ([] : List Nat) :=
              List.drop_eq_nil_of_le (by rw [hhl]; omega)
            show (([MELIAN_HEADER_VERSION, a2, t2, i2] ++ be32 key2.length)
              ++ key2).drop (4096 - tail.length)
              = key2.drop (4096 - tail.length - 8)
            rw [List.drop_append_eq_append_drop, hnil2, hhl, List.nil_append]
          rw [hrest2] at hcall
          have hrun := connRun_step env (f + 1)
            (⟨[], 0, 8, act, tb, ix, klen, klen - tail.length, true⟩ : Conn)
            (tail ++ mkRequest a2 t2 i2 key2) _ _ _ _ hne (by rw [hcall])
            (by omega)
          simp only [Nat.add_sub_cancel] at hrun
          obtain ⟨p2a, p2b⟩ := connRun_midkey env a2 t2 i2 key2
            (4096 - tail.length - 8) f (by omega) hk2 (by omega)
          rw [hrun, p2a, p2b]
          simp

/-- C5: a request whose key length exceeds MELIAN_MAX_KEY_LEN is answered
with the four-byte zero-length payload after exactly its key_length key
bytes are consumed and discarded (across as many reads as that takes,
without any lookup — the response does not depend on the fetch
environment), the connection stays open, and the next request on the
wire is processed normally. -/
theorem oversized_key_discard (env : Env) (aU tU iU : Nat) (keyU : List Nat)
    (a2 t2 i2 : Nat) (key2 : List Nat)
    (hbig : MELIAN_MAX_KEY_LEN < keyU.length) (hsz : keyU.length < 2 ^ 32)
    (hk2 : key2.length ≤ MELIAN_MAX_KEY_LEN) :
    (connRun env
        ((mkRequest aU tU iU keyU ++ mkRequest a2 t2 i2 key2).length + 1)
        connInit (mkRequest aU tU iU keyU ++ mkRequest a2 t2 i2 key2)).2.1
      = [be32 0, respOf env a2 t2 i2 key2] ∧
    (connRun env
        ((mkRequest aU tU iU keyU ++ mkRequest a2 t2 i2 key2).length + 1)
        connInit (mkRequest aU tU iU keyU ++ mkRequest a2 t2 i2 key2)).2.2
      = false := by
  have hmax : (MELIAN_MAX_KEY_LEN : Nat) = 256 := rfl
  have hbig' : 256 < keyU.length := hmax ▸ hbig
  have hk2' : key2.length ≤ 256 := hmax ▸ hk2
  have hL1 : (mkRequest aU tU iU keyU).length = 8 + keyU.length :=
    mkRequest_length aU tU iU keyU
  have hL2 : (mkRequest a2 t2 i2 key2).length = 8 + key2.length :=
    mkRequest_length a2 t2 i2 key2
  have hS : (mkRequest aU tU iU keyU ++ mkRequest a2 t2 i2 key2).length
      = (8 + keyU.length) + (8 + key2.length) := by
    rw [List.length_append, hL1, hL2]
  have hne : mkRequest aU tU iU keyU ++ mkRequest a2 t2 i2 key2 ≠ [] := by
    intro h
    have := congrArg List.length h
    rw [hS] at this
    simp at this
  have hhlU : ([MELIAN_HEADER_VERSION, aU, tU, iU]
      ++ be32 keyU.length).length = 8 := by
    simp [be32]
  by_cases hone : (mkRequest aU tU iU keyU
      ++ mkRequest a2 t2 i2 key2).length ≤ 4096
  · -- Both requests fit in one read: the whole key is discarded at once.
    have hchunk : min (MELIAN_RBUF_SIZE - connInit.rbuf.length)
        (mkRequest aU tU iU keyU ++ mkRequest a2 t2 i2 key2).length
        = (mkRequest aU tU iU keyU ++ mkRequest a2 t2 i2 key2).length := by
      show min (4096 - 0)
        (mkRequest aU tU iU keyU ++ mkRequest a2 t2 i2 key2).length
        = (mkRequest aU tU iU keyU ++ mkRequest a2 t2 i2 key2).length
      omega
    have hcall := onReadCall_eq env connInit
      (mkRequest aU tU iU keyU ++ mkRequest a2 t2 i2 key2)
      (mkRequest aU tU iU keyU ++ mkRequest a2 t2 i2 key2).length hchunk
    rw [List.take_length, List.drop_length] at hcall
    have hCA : ({ connInit with rbuf := connInit.rbuf
          ++ (mkRequest aU tU iU keyU ++ mkRequest a2 t2 i2 key2) } : Conn)
        = ⟨mkRequest aU tU iU keyU ++ mkRequest a2 t2 i2 key2,
           0, 0, 0, 0, 0, 0, 0, false⟩ := by
      simp [connInit]
    have hflen : (connInit.rbuf
          ++ (mkRequest aU tU iU keyU ++ mkRequest a2 t2 i2 key2)).length
        = (mkRequest aU tU iU keyU ++ mkRequest a2 t2 i2 key2).length := by
      simp [connInit]
    rw [hCA, hflen] at hcall
    have hbufA : (⟨mkRequest aU tU iU keyU ++ mkRequest a2 t2 i2 key2,
          0, 0, 0, 0, 0, 0, 0, false⟩ : Conn).rbuf.drop
          (⟨mkRequest aU tU iU keyU ++ mkRequest a2 t2 i2 key2,
            0, 0, 0, 0, 0, 0, 0, false⟩ : Conn).rbufPos
        = [MELIAN_HEADER_VERSION, aU, tU, iU] ++ be32 keyU.length
          ++ (keyU ++ mkRequest a2 t2 i2 key2) :=
      List.append_assoc _ _ _
    have hstep1 := connStep_oversized_done env
      (⟨mkRequest aU tU iU keyU ++ mkRequest a2 t2 i2 key2,
        0, 0, 0, 0, 0, 0, 0, false⟩ : Conn)
      aU tU iU keyU.length (keyU ++ mkRequest a2 t2 i2 key2)
      rfl hbufA hbig hsz
      (by rw [List.length_append]; omega)
    have hrecB : ({ (⟨mkRequest aU tU iU keyU ++ mkRequest a2 t2 i2 key2,
          0, 0, 0, 0, 0, 0, 0, false⟩ : Conn) with
          action := aU, tableId := tU, indexId := iU, keyLen := keyU.length,
          rbufPos := (⟨mkRequest aU tU iU keyU ++ mkRequest a2 t2 i2 key2,
            0, 0, 0, 0, 0, 0, 0, false⟩ : Conn).rbufPos + 8 + keyU.length,
          hdrHave := 0, discarding := false, keyHave := 0 } : Conn)
        = ⟨mkRequest aU tU iU keyU ++ mkRequest a2 t2 i2 key2,
           8 + keyU.length, 0, aU, tU, iU, keyU.length, 0, false⟩ := by
      simp
    rw [hrecB] at hstep1
    have hbufB : (⟨mkRequest aU tU iU keyU ++ mkRequest a2 t2 i2 key2,
          8 + keyU.length, 0, aU, tU, iU, keyU.length, 0,
          false⟩ : Conn).rbuf.drop
          (⟨mkRequest aU tU iU keyU ++ mkRequest a2 t2 i2 key2,
            8 + keyU.length, 0, aU, tU, iU, keyU.length, 0,
            false⟩ : Conn).rbufPos
        = mkRequest a2 t2 i2 key2 ++ [] := by
      show (mkRequest aU tU iU keyU ++ mkRequest a2 t2 i2 key2).drop
        (8 + keyU.length) = mkRequest a2 t2 i2 key2 ++ []
      rw [List.append_nil, ← hL1]
      exact List.drop_left _ _
    have hstep2 := connStep_request env
      (⟨mkRequest aU tU iU keyU ++ mkRequest a2 t2 i2 key2,
        8 + keyU.length, 0, aU, tU, iU, keyU.length, 0, false⟩ : Conn)
      a2 t2 i2 key2 [] rfl hbufB hk2
    have hrecC : ({ (⟨mkRequest aU tU iU keyU ++ mkRequest a2 t2 i2 key2,
          8 + keyU.length, 0, aU, tU, iU, keyU.length, 0,
          false⟩ : Conn) with
          action := a2, tableId := t2, indexId := i2, keyLen := key2.length,
          rbufPos := (⟨mkRequest aU tU iU keyU ++ mkRequest a2 t2 i2 key2,
            8 + keyU.length, 0, aU, tU, iU, keyU.length, 0,
            false⟩ : Conn).rbufPos + 8 + key2.length,
          hdrHave := 0, keyHave := 0, discarding := false } : Conn)
        = ⟨mkRequest aU tU iU keyU ++ mkRequest a2 t2 i2 key2,
           8 + keyU.length + 8 + key2.length, 0, a2, t2, i2, key2.length, 0,
           false⟩ := by
      simp
    rw [hrecC] at hstep2
    have hstep3 : connStep env
        (⟨mkRequest aU tU iU keyU ++ mkRequest a2 t2 i2 key2,
          8 + keyU.length + 8 + key2.length, 0, a2, t2, i2, key2.length, 0,
          false⟩ : Conn)
        = .needMore (⟨mkRequest aU tU iU keyU ++ mkRequest a2 t2 i2 key2,
          8 + keyU.length + 8 + key2.length, 0, a2, t2, i2, key2.length, 0,
          false⟩ : Conn) := by
      refine connStep_needmore env _ rfl ?_
      show (mkRequest aU tU iU keyU ++ mkRequest a2 t2 i2 key2).length
        - (8 + keyU.length + 8 + key2.length) < 8
      omega
    have hloop1 := connLoop_emit env
      ((mkRequest aU tU iU keyU ++ mkRequest a2 t2 i2 key2).length + 1)
      _ _ _ _ hstep1 (by omega)
    have hloop2 := connLoop_emit env
      ((mkRequest aU tU iU keyU ++ mkRequest a2 t2 i2 key2).length + 1 - 1)
      _ _ _ _ hstep2 (by omega)
    have hloop3 := connLoop_needMore env
      ((mkRequest aU tU iU keyU ++ mkRequest a2 t2 i2 key2).length
        + 1 - 1 - 1) _ _ hstep3 (by omega)
    rw [hloop2, hloop3] at hloop1
    rw [hloop1] at hcall
    have hrun := connRun_step env
      ((mkRequest aU tU iU keyU ++ mkRequest a2 t2 i2 key2).length + 1)
      connInit (mkRequest aU tU iU keyU ++ mkRequest a2 t2 i2 key2)
      _ _ _ _ hne (by rw [hcall]) (by omega)
    rw [connRun_nil] at hrun
    rw [hrun]
    simp
  · by_cases hku : 4088 < keyU.length
    · -- The first read window is header plus 4088 key bytes; the rest of
      -- the key is discarded across later reads by connRun_discard.
      have hchunk : min (MELIAN_RBUF_SIZE - connInit.rbuf.length)
          (mkRequest aU tU iU keyU ++ mkRequest a2 t2 i2 key2).length
          = 4096 := by
        show min (4096 - 0)
          (mkRequest aU tU iU keyU ++ mkRequest a2 t2 i2 key2).length = 4096
        omega
      have hcall := onReadCall_eq env connInit
        (mkRequest aU tU iU keyU ++ mkRequest a2 t2 i2 key2) 4096 hchunk
      have htkl : (keyU.take 4088).length = 4088 := by
        rw [List.length_take]
        omega
      have htake : (mkRequest aU tU iU keyU
            ++ mkRequest a2 t2 i2 key2).take 4096
          = [MELIAN_HEADER_VERSION, aU, tU, iU] ++ be32 keyU.length
            ++ keyU.take 4088 := by
        show ((([MELIAN_HEADER_VERSION, aU, tU, iU] ++ be32 keyU.length)
          ++ keyU) ++ mkRequest a2 t2 i2 key2).take 4096
          = ([MELIAN_HEADER_VERSION, aU, tU, iU] ++ be32 keyU.length)
            ++ keyU.take 4088
        rw [List.take_append_eq_append_take]
        have hR0 : 4096 - (([MELIAN_HEADER_VERSION, aU, tU, iU]
            ++ be32 keyU.length) ++ keyU).length = 0 := by
          rw [List.length_append, hhlU]
          omega
        rw [hR0, List.take_append_eq_append_take]
        have ht8 : ([MELIAN_HEADER_VERSION, aU, tU, iU]
            ++ be32 keyU.length).take 4096
            = [MELIAN_HEADER_VERSION, aU, tU, iU] ++ be32 keyU.length :=
          List.take_of_length_le (by rw [hhlU]; omega)
        rw [ht8, hhlU]
        have h4088 : (4096 - 8 : Nat) = 4088 := by norm_num
        rw [h4088]
        simp
      have hrest : (mkRequest aU tU iU keyU
            ++ mkRequest a2 t2 i2 key2).drop 4096
          = keyU.drop 4088 ++ mkRequest a2 t2 i2 key2 := by
        show ((([MELIAN_HEADER_VERSION, aU, tU, iU] ++ be32 keyU.length)
          ++ keyU) ++ mkRequest a2 t2 i2 key2).drop 4096
          = keyU.drop 4088 ++ mkRequest a2 t2 i2 key2
        rw [List.drop_append_eq_append_drop]
        have hR0 : 4096 - (([MELIAN_HEADER_VERSION, aU, tU, iU]
            ++ be32 keyU.length) ++ keyU).length = 0 := by
          rw [List.length_append, hhlU]
          omega
        rw [hR0, List.drop_zero, List.drop_append_eq_append_drop]
        have hdnil : ([MELIAN_HEADER_VERSION, aU, tU, iU]
            ++ be32 keyU.length).drop 4096 = ([] : List Nat) :=
          List.drop_eq_nil_of_le (by rw [hhlU]; omega)
        rw [hdnil, hhlU]
        have h4088 : (4096 - 8 : Nat) = 4088 := by norm_num
        rw [h4088, List.nil_append]
      rw [htake, hrest] at hcall
      have hCA : ({ connInit with rbuf := connInit.rbuf
            ++ ([MELIAN_HEADER_VERSION, aU, tU, iU] ++ be32 keyU.length
              ++ keyU.take 4088) } : Conn)
          = ⟨[MELIAN_HEADER_VERSION, aU, tU, iU] ++ be32 keyU.length
             ++ keyU.take 4088, 0, 0, 0, 0, 0, 0, 0, false⟩ := by
        simp [connInit]
      have hflen : (connInit.rbuf ++ ([MELIAN_HEADER_VERSION, aU, tU, iU]
            ++ be32 keyU.length ++ keyU.take 4088)).length = 4096 := by
        show (([] : List Nat) ++ ([MELIAN_HEADER_VERSION, aU, tU, iU]
          ++ be32 keyU.length ++ keyU.take 4088)).length = 4096
        rw [List.nil_append, List.length_append, hhlU, htkl]
      rw [hCA, hflen] at hcall
      have hstep1 := connStep_oversized_more env
        (⟨[MELIAN_HEADER_VERSION, aU, tU, iU] ++ be32 keyU.length
          ++ keyU.take 4088, 0, 0, 0, 0, 0, 0, 0, false⟩ : Conn)
        aU tU iU keyU.length (keyU.take 4088) rfl rfl hbig hsz
        (by rw [htkl]; omega)
      have hrecB : ({ (⟨[MELIAN_HEADER_VERSION, aU, tU, iU]
            ++ be32 keyU.length ++ keyU.take 4088, 0, 0, 0, 0, 0, 0, 0,
            false⟩ : Conn) with
            action := aU, tableId := tU, indexId := iU, keyLen := keyU.length,
            rbufPos := (⟨[MELIAN_HEADER_VERSION, aU, tU, iU]
              ++ be32 keyU.length ++ keyU.take 4088, 0, 0, 0, 0, 0, 0, 0,
              false⟩ : Conn).rbufPos + 8 + (keyU.take 4088).length,
            hdrHave := 8, discarding := true,
            keyHave := (keyU.take 4088).length } : Conn)
          = ⟨[MELIAN_HEADER_VERSION, aU, tU, iU] ++ be32 keyU.length
             ++ keyU.take 4088, 4096, 8, aU, tU, iU, keyU.length,
             keyU.length - (keyU.drop 4088).length, true⟩ := by
        simp [htkl, List.length_drop]
        omega
      rw [hrecB] at hstep1
      have hloop := connLoop_needMore env (4096 + 1) _ _ hstep1 (by omega)
      rw [hloop] at hcall
      dsimp only at hcall
      have hall : ([MELIAN_HEADER_VERSION, aU, tU, iU] ++ be32 keyU.length
          ++ keyU.take 4088).drop 4096 = ([] : List Nat) :=
        List.drop_eq_nil_of_le
          (by rw [List.length_append, hhlU, htkl])
      have hcompact : compact (⟨[MELIAN_HEADER_VERSION, aU, tU, iU]
            ++ be32 keyU.length ++ keyU.take 4088, 4096, 8, aU, tU, iU,
            keyU.length, keyU.length - (keyU.drop 4088).length,
            true⟩ : Conn)
          = ⟨[], 0, 8, aU, tU, iU, keyU.length,
             keyU.length - (keyU.drop 4088).length, true⟩ := by
        unfold compact
        dsimp only
        rw [hall]
      rw [hcompact] at hcall
      have hrun := connRun_step env
        ((mkRequest aU tU iU keyU ++ mkRequest a2 t2 i2 key2).length + 1)
        connInit (mkRequest aU tU iU keyU ++ mkRequest a2 t2 i2 key2)
        _ _ _ _ hne (by rw [hcall]) (by omega)
      simp only [Nat.add_sub_cancel] at hrun
      obtain ⟨d1, d2⟩ := connRun_discard env a2 t2 i2 key2 aU tU iU
        keyU.length (keyU.drop 4088)
        (mkRequest aU tU iU keyU ++ mkRequest a2 t2 i2 key2).length hk2
        (by rw [List.length_drop]; omega)
        (by rw [List.length_drop]; omega)
        (by rw [List.length_drop]; omega)
      rw [hrun, d1, d2]
      simp
    · -- The whole oversized request fits in the first window, the second
      -- request straddles its edge.
      have hchunk : min (MELIAN_RBUF_SIZE - connInit.rbuf.length)
          (mkRequest aU tU iU keyU ++ mkRequest a2 t2 i2 key2).length
          = 4096 := by
        show min (4096 - 0)
          (mkRequest aU tU iU keyU ++ mkRequest a2 t2 i2 key2).length = 4096
        omega
      have hcall := onReadCall_eq env connInit
        (mkRequest aU tU iU keyU ++ mkRequest a2 t2 i2 key2) 4096 hchunk
      have hlen' : 4096 - (([MELIAN_HEADER_VERSION, aU, tU, iU]
          ++ be32 keyU.length) ++ keyU).length = 4088 - keyU.length := by
        rw [List.length_append, hhlU]
        omega
      have htake : (mkRequest aU tU iU keyU
            ++ mkRequest a2 t2 i2 key2).take 4096
          = [MELIAN_HEADER_VERSION, aU, tU, iU] ++ be32 keyU.length
            ++ (keyU ++ (mkRequest a2 t2 i2 key2).take
              (4088 - keyU.length)) := by
        show ((([MELIAN_HEADER_VERSION, aU, tU, iU] ++ be32 keyU.length)
          ++ keyU) ++ mkRequest a2 t2 i2 key2).take 4096
          = ([MELIAN_HEADER_VERSION, aU, tU, iU] ++ be32 keyU.length)
            ++ (keyU ++ (mkRequest a2 t2 i2 key2).take (4088 - keyU.length))
        rw [List.take_append_eq_append_take]
        have htfull : (([MELIAN_HEADER_VERSION, aU, tU, iU]
            ++ be32 keyU.length) ++ keyU).take 4096
            = ([MELIAN_HEADER_VERSION, aU, tU, iU] ++ be32 keyU.length)
              ++ keyU :=
          List.take_of_length_le (by rw [List.length_append, hhlU]; omega)
        rw [htfull, hlen']
        exact List.append_assoc _ _ _
      have hrest : (mkRequest aU tU iU keyU
            ++ mkRequest a2 t2 i2 key2).drop 4096
          = (mkRequest a2 t2 i2 key2).drop (4088 - keyU.length) := by
        show ((([MELIAN_HEADER_VERSION, aU, tU, iU] ++ be32 keyU.length)
          ++ keyU) ++ mkRequest a2 t2 i2 key2).drop 4096
          = (mkRequest a2 t2 i2 key2).drop (4088 - keyU.length)
        rw [List.drop_append_eq_append_drop]
        have hdnil' : (([MELIAN_HEADER_VERSION, aU, tU, iU]
            ++ be32 keyU.length) ++ keyU).drop 4096 = ([] : List Nat) :=
          List.drop_eq_nil_of_le (by rw [List.length_append, hhlU]; omega)
        rw [hdnil', hlen', List.nil_append]
      rw [htake, hrest] at hcall
      have htR2 : ((mkRequest a2 t2 i2 key2).take
          (4088 - keyU.length)).length = 4088 - keyU.length := by
        rw [List.length_take, hL2]
        omega
      have hCA : ({ connInit with rbuf := connInit.rbuf
            ++ ([MELIAN_HEADER_VERSION, aU, tU, iU] ++ be32 keyU.length
              ++ (keyU ++ (mkRequest a2 t2 i2 key2).take
                (4088 - keyU.length))) } : Conn)
          = ⟨[MELIAN_HEADER_VERSION, aU, tU, iU] ++ be32 keyU.length
             ++ (keyU ++ (mkRequest a2 t2 i2 key2).take
               (4088 - keyU.length)), 0, 0, 0, 0, 0, 0, 0, false⟩ := by
        simp [connInit]
      have hbuflen : ([MELIAN_HEADER_VERSION, aU, tU, iU] ++ be32 keyU.length
            ++ (keyU ++ (mkRequest a2 t2 i2 key2).take
              (4088 - keyU.length))).length = 4096 := by
        rw [List.length_append, hhlU, List.length_append, htR2]
        omega
      have hflen : (connInit.rbuf ++ ([MELIAN_HEADER_VERSION, aU, tU, iU]
            ++ be32 keyU.length ++ (keyU ++ (mkRequest a2 t2 i2 key2).take
              (4088 - keyU.length)))).length = 4096 := by
        show (([] : List Nat) ++ ([MELIAN_HEADER_VERSION, aU, tU, iU]
          ++ be32 keyU.length ++ (keyU ++ (mkRequest a2 t2 i2 key2).take
            (4088 - keyU.length)))).length = 4096
        rw [List.nil_append, hbuflen]
      rw [hCA, hflen] at hcall
      have hstep1 := connStep_oversized_done env
        (⟨[MELIAN_HEADER_VERSION, aU, tU, iU] ++ be32 keyU.length
          ++ (keyU ++ (mkRequest a2 t2 i2 key2).take (4088 - keyU.length)),
          0, 0, 0, 0, 0, 0, 0, false⟩ : Conn)
        aU tU iU keyU.length
        (keyU ++ (mkRequest a2 t2 i2 key2).take (4088 - keyU.length))
        rfl rfl hbig hsz
        (by rw [List.length_append]; omega)
      have hrecB : ({ (⟨[MELIAN_HEADER_VERSION, aU, tU, iU]
            ++ be32 keyU.length ++ (keyU ++ (mkRequest a2 t2 i2 key2).take
              (4088 - keyU.length)), 0, 0, 0, 0, 0, 0, 0,
            false⟩ : Conn) with
            action := aU, tableId := tU, indexId := iU, keyLen := keyU.length,
            rbufPos := (⟨[MELIAN_HEADER_VERSION, aU, tU, iU]
              ++ be32 keyU.length ++ (keyU ++ (mkRequest a2 t2 i2 key2).take
                (4088 - keyU.length)), 0, 0, 0, 0, 0, 0, 0,
              false⟩ : Conn).rbufPos + 8 + keyU.length,
            hdrHave := 0, discarding := false, keyHave := 0 } : Conn)
          = ⟨[MELIAN_HEADER_VERSION, aU, tU, iU] ++ be32 keyU.length
             ++ (keyU ++ (mkRequest a2 t2 i2 key2).take
               (4088 - keyU.length)), 8 + keyU.length, 0, aU, tU, iU,
             keyU.length, 0, false⟩ := by
        simp
      rw [hrecB] at hstep1
      have hdropbuf : ([MELIAN_HEADER_VERSION, aU, tU, iU] ++ be32 keyU.length
            ++ (keyU ++ (mkRequest a2 t2 i2 key2).take
              (4088 - keyU.length))).drop (8 + keyU.length)
          = (mkRequest a2 t2 i2 key2).take (4088 - keyU.length) := by
        rw [List.drop_append_eq_append_drop]
        have hdnil : ([MELIAN_HEADER_VERSION, aU, tU, iU]
            ++ be32 keyU.length).drop (8 + keyU.length) = ([] : List Nat) :=
          List.drop_eq_nil_of_le (by rw [hhlU]; omega)
        rw [hdnil, hhlU, List.nil_append]
        have h8 : 8 + keyU.length - 8 = keyU.length := by omega
        rw [h8]
        exact List.drop_left _ _
      by_cases hb8 : 4088 - keyU.length < 8
      · -- Fewer than 8 bytes of the next request are in the first window.
        have hstep2 : connStep env
            (⟨[MELIAN_HEADER_VERSION, aU, tU, iU] ++ be32 keyU.length
              ++ (keyU ++ (mkRequest a2 t2 i2 key2).take
                (4088 - keyU.length)), 8 + keyU.length, 0, aU, tU, iU,
              keyU.length, 0, false⟩ : Conn)
            = .needMore (⟨[MELIAN_HEADER_VERSION, aU, tU, iU]
              ++ be32 keyU.length ++ (keyU ++ (mkRequest a2 t2 i2 key2).take
                (4088 - keyU.length)), 8 + keyU.length, 0, aU, tU, iU,
              keyU.length, 0, false⟩ : Conn) := by
          refine connStep_needmore env _ rfl ?_
          show ([MELIAN_HEADER_VERSION, aU, tU, iU] ++ be32 keyU.length
            ++ (keyU ++ (mkRequest a2 t2 i2 key2).take
              (4088 - keyU.length))).length - (8 + keyU.length) < 8
          rw [hbuflen]
          omega
        have hloop1 := connLoop_emit env (4096 + 1) _ _ _ _ hstep1 (by omega)
        have hloop2 := connLoop_needMore env (4096 + 1 - 1) _ _ hstep2
          (by omega)
        rw [hloop2] at hloop1
        rw [hloop1] at hcall
        dsimp only at hcall
        have hcompact : compact (⟨[MELIAN_HEADER_VERSION, aU, tU, iU]
              ++ be32 keyU.length ++ (keyU ++ (mkRequest a2 t2 i2 key2).take
                (4088 - keyU.length)), 8 + keyU.length, 0, aU, tU, iU,
              keyU.length, 0, false⟩ : Conn)
            = ⟨(mkRequest a2 t2 i2 key2).take (4088 - keyU.length), 0, 0, aU,
               tU, iU, keyU.length, 0, false⟩ := by
          unfold compact
          dsimp only
          rw [hdropbuf]
        rw [hcompact] at hcall
        have hrun := connRun_step env
          ((mkRequest aU tU iU keyU ++ mkRequest a2 t2 i2 key2).length + 1)
          connInit (mkRequest aU tU iU keyU ++ mkRequest a2 t2 i2 key2)
          _ _ _ _ hne (by rw [hcall]) (by omega)
        simp only [Nat.add_sub_cancel] at hrun
        obtain ⟨p1a, p1b⟩ := connRun_clean_tail env a2 t2 i2 key2
          (4088 - keyU.length) aU tU iU keyU.length 0 false
          (mkRequest aU tU iU keyU ++ mkRequest a2 t2 i2 key2).length
          hb8 hk2 (by omega)
        rw [hrun, p1a, p1b]
        simp
      · -- The next request's header is complete, its key is partial.
        have hhl2 : ([MELIAN_HEADER_VERSION, a2, t2, i2]
            ++ be32 key2.length).length = 8 := by
          simp [be32]
        have hsplit : (mkRequest a2 t2 i2 key2).take (4088 - keyU.length)
            = [MELIAN_HEADER_VERSION, a2, t2, i2] ++ be32 key2.length
              ++ key2.take (4088 - keyU.length - 8) := by
          show (([MELIAN_HEADER_VERSION, a2, t2, i2] ++ be32 key2.length)
            ++ key2).take (4088 - keyU.length) = _
          rw [List.take_append_eq_append_take]
          have ht8 : ([MELIAN_HEADER_VERSION, a2, t2, i2]
              ++ be32 key2.length).take (4088 - keyU.length)
              = [MELIAN_HEADER_VERSION, a2, t2, i2] ++ be32 key2.length :=
            List.take_of_length_le (by rw [hhl2]; omega)
          rw [ht8, hhl2]
        have hstep2 := connStep_header_only env
          (⟨[MELIAN_HEADER_VERSION, aU, tU, iU] ++ be32 keyU.length
            ++ (keyU ++ (mkRequest a2 t2 i2 key2).take (4088 - keyU.length)),
            8 + keyU.length, 0, aU, tU, iU, keyU.length, 0, false⟩ : Conn)
          a2 t2 i2 key2.length (key2.take (4088 - keyU.length - 8)) rfl
          (by
            show ([MELIAN_HEADER_VERSION, aU, tU, iU] ++ be32 keyU.length
              ++ (keyU ++ (mkRequest a2 t2 i2 key2).take
                (4088 - keyU.length))).drop (8 + keyU.length)
              = [MELIAN_HEADER_VERSION, a2, t2, i2] ++ be32 key2.length
                ++ key2.take (4088 - keyU.length - 8)
            rw [hdropbuf, hsplit])
          (by
            rw [List.length_take]
            omega)
          hk2
        have hrecC : ({ (⟨[MELIAN_HEADER_VERSION, aU, tU, iU]
              ++ be32 keyU.length ++ (keyU ++ (mkRequest a2 t2 i2 key2).take
                (4088 - keyU.length)), 8 + keyU.length, 0, aU, tU, iU,
              keyU.length, 0, false⟩ : Conn) with
              action := a2, tableId := t2, indexId := i2,
              keyLen := key2.length,
              rbufPos := (⟨[MELIAN_HEADER_VERSION, aU, tU, iU]
                ++ be32 keyU.length ++ (keyU ++ (mkRequest a2 t2 i2 key2).take
                  (4088 - keyU.length)), 8 + keyU.length, 0, aU, tU, iU,
                keyU.length, 0, false⟩ : Conn).rbufPos + 8,
              hdrHave := 8, discarding := false, keyHave := 0 } : Conn)
            = ⟨[MELIAN_HEADER_VERSION, aU, tU, iU] ++ be32 keyU.length
               ++ (keyU ++ (mkRequest a2 t2 i2 key2).take
                 (4088 - keyU.length)), 8 + keyU.length + 8, 8, a2, t2, i2,
               key2.length, 0, false⟩ := by
          simp
        rw [hrecC] at hstep2
        have hloop1 := connLoop_emit env (4096 + 1) _ _ _ _ hstep1 (by omega)
        have hloop2 := connLoop_needMore env (4096 + 1 - 1) _ _ hstep2
          (by omega)
        rw [hloop2] at hloop1
        rw [hloop1] at hcall
        dsimp only at hcall
        have hdropR2 : (mkRequest a2 t2 i2 key2).drop 8 = key2 :=
          List.drop_left' hhl2
        have hdrop8 : ([MELIAN_HEADER_VERSION, aU, tU, iU] ++ be32 keyU.length
              ++ (keyU ++ (mkRequest a2 t2 i2 key2).take
                (4088 - keyU.length))).drop (8 + keyU.length + 8)
            = key2.take (4088 - keyU.length - 8) := by
          rw [List.drop_append_eq_append_drop]
          have hdnil : ([MELIAN_HEADER_VERSION, aU, tU, iU]
              ++ be32 keyU.length).drop (8 + keyU.length + 8)
              = ([] : List Nat) :=
            List.drop_eq_nil_of_le (by rw [hhlU]; omega)
          rw [hdnil, hhlU, List.nil_append]
          have h8 : 8 + keyU.length + 8 - 8 = keyU.length + 8 := by omega
          rw [h8, List.drop_append_eq_append_drop]
          have hknil : keyU.drop (keyU.length + 8) = ([] : List Nat) :=
            List.drop_eq_nil_of_le (by omega)
          rw [hknil, List.nil_append]
          have h8' : keyU.length + 8 - keyU.length = 8 := by omega
          rw [h8', List.drop_take, hdropR2]
        have hcompact : compact (⟨[MELIAN_HEADER_VERSION, aU, tU, iU]
              ++ be32 keyU.length ++ (keyU ++ (mkRequest a2 t2 i2 key2).take
                (4088 - keyU.length)), 8 + keyU.length + 8, 8, a2, t2, i2,
              key2.length, 0, false⟩ : Conn)
            = ⟨key2.take (4088 - keyU.length - 8), 0, 8, a2, t2, i2,
               key2.length, 0, false⟩ := by
          unfold compact
          dsimp only
          rw [hdrop8]
        rw [hcompact] at hcall
        have hrest2 : (mkRequest a2 t2 i2 key2).drop (4088 - keyU.length)
            = key2.drop (4088 - keyU.length - 8) := by
          have hnil2 : ([MELIAN_HEADER_VERSION, a2, t2, i2]
              ++ be32 key2.length).drop (4088 - keyU.length)
              = ([] : List Nat) :=
            List.drop_eq_nil_of_le (by rw [hhl2]; omega)
          show (([MELIAN_HEADER_VERSION, a2, t2, i2] ++ be32 key2.length)
            ++ key2).drop (4088 - keyU.length)
            = key2.drop (4088 - keyU.length - 8)
          rw [List.drop_append_eq_append_drop, hnil2, hhl2, List.nil_append]
        rw [hrest2] at hcall
        have hrun := connRun_step env
          ((mkRequest aU tU iU keyU ++ mkRequest a2 t2 i2 key2).length + 1)
          connInit (mkRequest aU tU iU keyU ++ mkRequest a2 t2 i2 key2)
          _ _ _ _ hne (by rw [hcall]) (by omega)
        simp only [Nat.add_sub_cancel] at hrun
        obtain ⟨p2a, p2b⟩ := connRun_midkey env a2 t2 i2 key2
          (4088 - keyU.length - 8)
          (mkRequest aU tU iU keyU ++ mkRequest a2 t2 i2 key2).length
          (by omega) hk2 (by omega)
        rw [hrun, p2a, p2b]
        simp

/-- Witness for C5 at a concrete input: a 257-byte key on a FETCH request
(one byte over the maximum), followed by a stats request. -/
theorem oversized_key_discard_witness :
    (connRun c4Env
        ((mkRequest 70 1 2 (List.replicate 257 7)
          ++ mkRequest 115 0 0 [1]).length + 1)
        connInit (mkRequest 70 1 2 (List.replicate 257 7)
          ++ mkRequest 115 0 0 [1])).2.1
      = [be32 0, respOf c4Env 115 0 0 [1]] ∧
    (connRun c4Env
        ((mkRequest 70 1 2 (List.replicate 257 7)
          ++ mkRequest 115 0 0 [1]).length + 1)
        connInit (mkRequest 70 1 2 (List.replicate 257 7)
          ++ mkRequest 115 0 0 [1])).2.2 = false :=
  oversized_key_discard c4Env 70 1 2 (List.replicate 257 7) 115 0 0 [1]
    (by decide) (by decide) (by decide)

/-- C10: a request whose header version is 0x11 but whose action byte is
none of 'F' (70), 'D' (68), 's' (115), 'q' (113), with an in-range key
length, is answered with the four-byte zero-length response; the
connection is not closed, and a subsequent request on the same connection
is processed normally (its response follows on the same wire). -/
theorem unknown_action_zero_reply (env : Env) (aU tU iU : Nat)
    (keyU : List Nat) (a2 t2 i2 : Nat) (key2 : List Nat)
    (h70 : aU ≠ 70) (h68 : aU ≠ 68) (h115 : aU ≠ 115) (h113 : aU ≠ 113)
    (hkU : keyU.length ≤ MELIAN_MAX_KEY_LEN)
    (hk2 : key2.length ≤ MELIAN_MAX_KEY_LEN) :
    (connRun env
        ((mkRequest aU tU iU keyU ++ mkRequest a2 t2 i2 key2).length + 1)
        connInit (mkRequest aU tU iU keyU ++ mkRequest a2 t2 i2 key2)).2.1
      = [be32 0, respOf env a2 t2 i2 key2] ∧
    (connRun env
        ((mkRequest aU tU iU keyU ++ mkRequest a2 t2 i2 key2).length + 1)
        connInit (mkRequest aU tU iU keyU ++ mkRequest a2 t2 i2 key2)).2.2
      = false := by
  have hmax : (MELIAN_MAX_KEY_LEN : Nat) = 256 := rfl
  have hkU' : keyU.length ≤ 256 := hmax ▸ hkU
  have hk2' : key2.length ≤ 256 := hmax ▸ hk2
  have hL1 : (mkRequest aU tU iU keyU).length = 8 + keyU.length :=
    mkRequest_length aU tU iU keyU
  have hL2 : (mkRequest a2 t2 i2 key2).length = 8 + key2.length :=
    mkRequest_length a2 t2 i2 key2
  have hS : (mkRequest aU tU iU keyU ++ mkRequest a2 t2 i2 key2).length
      = (8 + keyU.length) + (8 + key2.length) := by
    rw [List.length_append, hL1, hL2]
  -- The whole two-request stream fits in the 4096-byte read buffer.
  have hchunk : min
      (MELIAN_RBUF_SIZE - connInit.rbuf.length)
      (mkRequest aU tU iU keyU ++ mkRequest a2 t2 i2 key2).length
      = (mkRequest aU tU iU keyU ++ mkRequest a2 t2 i2 key2).length := by
    have hrbs : (MELIAN_RBUF_SIZE : Nat) = 4096 := rfl
    have h0 : connInit.rbuf.length = 0 := rfl
    rw [hrbs, h0]
    omega
  have hcall := onReadCall_eq env connInit
    (mkRequest aU tU iU keyU ++ mkRequest a2 t2 i2 key2)
    (mkRequest aU tU iU keyU ++ mkRequest a2 t2 i2 key2).length hchunk
  rw [List.take_length, List.drop_length] at hcall
  have hCA : ({ connInit with rbuf := connInit.rbuf
        ++ (mkRequest aU tU iU keyU ++ mkRequest a2 t2 i2 key2) } : Conn)
      = ⟨mkRequest aU tU iU keyU ++ mkRequest a2 t2 i2 key2,
         0, 0, 0, 0, 0, 0, 0, false⟩ := by
    simp [connInit]
  have hflen : (connInit.rbuf
        ++ (mkRequest aU tU iU keyU ++ mkRequest a2 t2 i2 key2)).length
      = (mkRequest aU tU iU keyU ++ mkRequest a2 t2 i2 key2).length := by
    simp [connInit]
  rw [hCA, hflen] at hcall
  -- First loop iteration: the unknown-action request is consumed whole.
  have hured := dispatchR_unknown env aU tU iU keyU h70 h68 h115 h113
  have hresp1 : respOf env aU tU iU keyU = be32 0 := by
    simp [respOf, hured]
  have hq1 : (dispatchR env aU tU iU keyU).2 = false := by
    simp [hured]
  have hbufA : (⟨mkRequest aU tU iU keyU ++ mkRequest a2 t2 i2 key2,
        0, 0, 0, 0, 0, 0, 0, false⟩ : Conn).rbuf.drop
        (⟨mkRequest aU tU iU keyU ++ mkRequest a2 t2 i2 key2,
          0, 0, 0, 0, 0, 0, 0, false⟩ : Conn).rbufPos
      = mkRequest aU tU iU keyU ++ mkRequest a2 t2 i2 key2 := rfl
  have hstep1 := connStep_request env
    (⟨mkRequest aU tU iU keyU ++ mkRequest a2 t2 i2 key2,
      0, 0, 0, 0, 0, 0, 0, false⟩ : Conn)
    aU tU iU keyU (mkRequest a2 t2 i2 key2) rfl hbufA hkU
  rw [hresp1, hq1] at hstep1
  have hrecB : ({ (⟨mkRequest aU tU iU keyU ++ mkRequest a2 t2 i2 key2,
        0, 0, 0, 0, 0, 0, 0, false⟩ : Conn) with
        action := aU, tableId := tU, indexId := iU,
        keyLen := keyU.length,
        rbufPos := (⟨mkRequest aU tU iU keyU ++ mkRequest a2 t2 i2 key2,
          0, 0, 0, 0, 0, 0, 0, false⟩ : Conn).rbufPos + 8 + keyU.length,
        hdrHave := 0, keyHave := 0, discarding := false } : Conn)
      = ⟨mkRequest aU tU iU keyU ++ mkRequest a2 t2 i2 key2,
         8 + keyU.length, 0, aU, tU, iU, keyU.length, 0, false⟩ := by
    simp
  rw [hrecB] at hstep1
  -- Second loop iteration: the follow-up request is parsed and answered.
  have hbufB : (⟨mkRequest aU tU iU keyU ++ mkRequest a2 t2 i2 key2,
        8 + keyU.length, 0, aU, tU, iU, keyU.length, 0, false⟩ : Conn).rbuf.drop
        (⟨mkRequest aU tU iU keyU ++ mkRequest a2 t2 i2 key2,
          8 + keyU.length, 0, aU, tU, iU, keyU.length, 0, false⟩ : Conn).rbufPos
      = mkRequest a2 t2 i2 key2 ++ [] := by
    show (mkRequest aU tU iU keyU ++ mkRequest a2 t2 i2 key2).drop
        (8 + keyU.length) = mkRequest a2 t2 i2 key2 ++ []
    rw [List.append_nil, ← hL1]
    exact List.drop_left _ _
  have hstep2 := connStep_request env
    (⟨mkRequest aU tU iU keyU ++ mkRequest a2 t2 i2 key2,
      8 + keyU.length, 0, aU, tU, iU, keyU.length, 0, false⟩ : Conn)
    a2 t2 i2 key2 [] rfl hbufB hk2
  have hrecC : ({ (⟨mkRequest aU tU iU keyU ++ mkRequest a2 t2 i2 key2,
        8 + keyU.length, 0, aU, tU, iU, keyU.length, 0, false⟩ : Conn) with
        action := a2, tableId := t2, indexId := i2,
        keyLen := key2.length,
        rbufPos := (⟨mkRequest aU tU iU keyU ++ mkRequest a2 t2 i2 key2,
          8 + keyU.length, 0, aU, tU, iU, keyU.length, 0,
          false⟩ : Conn).rbufPos + 8 + key2.length,
        hdrHave := 0, keyHave := 0, discarding := false } : Conn)
      = ⟨mkRequest aU tU iU keyU ++ mkRequest a2 t2 i2 key2,
         8 + keyU.length + 8 + key2.length, 0, a2, t2, i2,
         key2.length, 0, false⟩ := by
    simp
  rw [hrecC] at hstep2
  -- Third iteration: nothing left past the cursor, the loop stops.
  have hstep3 : connStep env
      (⟨mkRequest aU tU iU keyU ++ mkRequest a2 t2 i2 key2,
        8 + keyU.length + 8 + key2.length, 0, a2, t2, i2,
        key2.length, 0, false⟩ : Conn)
      = .needMore (⟨mkRequest aU tU iU keyU ++ mkRequest a2 t2 i2 key2,
        8 + keyU.length + 8 + key2.length, 0, a2, t2, i2,
        key2.length, 0, false⟩ : Conn) := by
    refine connStep_needmore env _ rfl ?_
    show (mkRequest aU tU iU keyU ++ mkRequest a2 t2 i2 key2).length
        - (8 + keyU.length + 8 + key2.length) < 8
    omega
  -- Assemble the request loop over the whole buffer.
  have hfuel2 : 2 ≤ (mkRequest aU tU iU keyU ++ mkRequest a2 t2 i2 key2).length := by
    omega
  have hloop1 := connLoop_emit env
    ((mkRequest aU tU iU keyU ++ mkRequest a2 t2 i2 key2).length + 1)
    _ _ _ _ hstep1 (by omega)
  have hloop2 := connLoop_emit env
    ((mkRequest aU tU iU keyU ++ mkRequest a2 t2 i2 key2).length + 1 - 1)
    _ _ _ _ hstep2 (by omega)
  have hloop3 := connLoop_needMore env
    ((mkRequest aU tU iU keyU ++ mkRequest a2 t2 i2 key2).length + 1 - 1 - 1)
    _ _ hstep3 (by omega)
  rw [hloop2, hloop3] at hloop1
  rw [hloop1] at hcall
  -- One on_read call handles both requests and leaves the stream empty.
  have hrun := connRun_step env
    ((mkRequest aU tU iU keyU ++ mkRequest a2 t2 i2 key2).length + 1)
    connInit (mkRequest aU tU iU keyU ++ mkRequest a2 t2 i2 key2)
    _ _ _ _
    (by
      intro h
      have := congrArg List.length h
      rw [hS] at this
      simp at this)
    (by rw [hcall])
    (by omega)
  rw [connRun_nil] at hrun
  rw [hrun]
  simp

/-- Witness for C10 at a concrete input: action byte 90 with a 3-byte key,
followed by a stats request. -/
theorem unknown_action_zero_reply_witness :
    (connRun c4Env
        ((mkRequest 90 1 2 [1, 2, 3] ++ mkRequest 115 0 0 []).length + 1)
        connInit (mkRequest 90 1 2 [1, 2, 3] ++ mkRequest 115 0 0 [])).2.1
      = [be32 0, respOf c4Env 115 0 0 []] ∧
    (connRun c4Env
        ((mkRequest 90 1 2 [1, 2, 3] ++ mkRequest 115 0 0 []).length + 1)
        connInit (mkRequest 90 1 2 [1, 2, 3] ++ mkRequest 115 0 0 [])).2.2
      = false :=
  unknown_action_zero_reply c4Env 90 1 2 [1, 2, 3] 115 0 0 []
    (by decide) (by decide) (by decide) (by decide) (by decide) (by decide)

end Melian
